import Mathlib

/-!
Verification of the Nicotine+ transfer queue managers
(`pynicotine/downloads.py`, `pynicotine/uploads.py`).

The Python modules are embedded shallowly: every transfer is a record, the
registry state is a record of association lists (Python dicts preserve
insertion order, which the lists model), and every handler becomes a pure
state-transforming function.  Outbound protocol messages, UI events,
notifications and filesystem operations are accumulated in effect lists on
the state.  External collaborators (configuration, the filesystem, locale
collation, peer/user statuses) are packaged in an `Env` record of functions.

The shared base class `Transfers` (pynicotine/transfers.py) and the helpers
from pynicotine/utils.py are not part of the source tree provided; the
definitions modelling them carry a doc comment starting with
`Modelled from the spec:` and follow the specification text.
-/

namespace Nicotine

/-- Transfer status / reject-reason vocabulary.  Python stores statuses as
strings; known constants are constructors, any other peer-supplied reason
string is `other s`.  `TransferStatus.QUEUED`/`TransferRejectReason.QUEUED`
(and `CANCELLED`) share the same string value in the source, hence they share
one constructor here. -/
inductive TStatus where
  | queued | transferring | finished | paused | cancelled | filtered
  | downloadFolderError | localFileError | userLoggedOff
  | connectionClosed | connectionTimeout
  | banned | fileNotShared | fileReadError | pendingShutdown
  | tooManyFiles | tooManyMegabytes | complete | disallowedExtension
  | other (s : String)
  deriving DecidableEq, Repr

/-- Modelled from the spec: the internal status vocabulary of the
`TransferStatus` class (transfers.py is not under src/); used by the
`reason in TransferStatus.__dict__.values()` check in `_upload_denied`. -/
def isTransferStatusValue : TStatus → Bool
  | .queued | .transferring | .finished | .paused | .cancelled | .filtered
  | .downloadFolderError | .localFileError | .userLoggedOff
  | .connectionClosed | .connectionTimeout => true
  | _ => false

/-- Peer/server user presence (slskmessages.UserStatus). -/
inductive UserStatus where
  | offline | away | online
  deriving DecidableEq, Repr

/-- One transfer record (the `Transfer` entity).  `fileHandle` stores the
open handle's file path (Python keeps the handle object; its `.name` is the
incomplete file path), `sock` whether a live socket is attached. -/
structure Transfer where
  username : String
  virtualPath : String
  folderPath : String := ""
  size : Nat := 0
  status : TStatus := .queued
  token : Option Nat := none
  sock : Bool := false
  fileHandle : Option String := none
  legacyAttempt : Bool := false
  sizeChanged : Bool := false
  currentByteOffset : Option Nat := none
  queuePosition : Nat := 0
  deriving DecidableEq, Repr

/-- Outbound peer messages produced by the embedded handlers. -/
inductive PMsg where
  | queueUpload (file : String) (legacy : Bool)
  | uploadDenied (file : String) (reason : TStatus)
  | placeInQueueResponse (filename : String) (place : Nat)
  | uploadFailed (file : String)
  deriving DecidableEq, Repr

/-- Messages to the network worker thread. -/
inductive NMsg where
  | closeConnection (username virtualPath : String)
  deriving DecidableEq, Repr

/-- UI events emitted via the event bus. -/
inductive Ev where
  | abortDownload (username virtualPath : String) (status : TStatus)
  | abortUpload (username virtualPath : String) (status : TStatus)
  | updateDownload (username virtualPath : String)
  | updateUpload (username virtualPath : String)
  | clearDownload (username virtualPath : String)
  | clearUpload (username virtualPath : String)
  | downloadLargeFolder (username folderPath : String) (numFiles : Nat)
  | downloadNotification
  deriving DecidableEq, Repr

/-- Filesystem operations performed by the core (recorded, since the real
I/O happens outside the embedded logic). -/
inductive FsOp where
  | makedirs (path : String)
  | move (src dst : String)
  | remove (path : String)
  deriving DecidableEq, Repr

/-! ### Dictionary helpers

Python dicts preserve insertion order; assignment to an existing key keeps
its position, a new key is appended, `del` removes the key. -/

/-- `d[k] = v` on an insertion-ordered dictionary. -/
def dictPut {α : Type} [DecidableEq α] {β : Type} :
    List (α × β) → α → β → List (α × β)
  | [], k, v => [(k, v)]
  | (k2, v2) :: rest, k, v =>
      if k2 = k then (k, v) :: rest else (k2, v2) :: dictPut rest k v

/-- `del d[k]` (total: removing an absent key is a no-op). -/
def dictDel {α : Type} [DecidableEq α] {β : Type}
    (l : List (α × β)) (k : α) : List (α × β) :=
  l.filter (fun e => decide (e.1 ≠ k))

/-- `d.get(k)`. -/
def dictGet {α : Type} [DecidableEq α] {β : Type}
    (l : List (α × β)) (k : α) : Option β :=
  match l with
  | [] => none
  | (k2, v) :: rest => if k2 = k then some v else dictGet rest k

/-- In-place mutation of the value stored at a key. -/
def dictMut {α : Type} [DecidableEq α] {β : Type} :
    List (α × β) → α → (β → β) → List (α × β)
  | [], _, _ => []
  | (k2, v) :: rest, k, f =>
      if k2 = k then (k2, f v) :: dictMut rest k f
      else (k2, v) :: dictMut rest k f

/-- Ordered-set insertion (dict with unit values: re-adding keeps position). -/
def setAdd {α : Type} [DecidableEq α] (l : List α) (a : α) : List α :=
  if a ∈ l then l else l ++ [a]

/-- Ordered-set removal. -/
def setDel {α : Type} [DecidableEq α] (l : List α) (a : α) : List α :=
  l.filter (fun x => decide (x ≠ a))

@[simp] theorem dictGet_nil {α : Type} [DecidableEq α] {β : Type} (k : α) :
    dictGet ([] : List (α × β)) k = none := rfl

@[simp] theorem dictGet_cons {α : Type} [DecidableEq α] {β : Type}
    (k2 : α) (v : β) (rest : List (α × β)) (k : α) :
    dictGet ((k2, v) :: rest) k = if k2 = k then some v else dictGet rest k := rfl

theorem dictGet_mut {α : Type} [DecidableEq α] {β : Type}
    (l : List (α × β)) (k : α) (f : β → β) :
    dictGet (dictMut l k f) k = (dictGet l k).map f := by
  induction l with
  | nil => rfl
  | cons e rest ih =>
      obtain ⟨k2, v⟩ := e
      by_cases h : k2 = k <;> simp [dictMut, dictGet, h, ih]

theorem dictGet_mut_ne {α : Type} [DecidableEq α] {β : Type}
    (l : List (α × β)) (k k2 : α) (f : β → β) (h : k2 ≠ k) :
    dictGet (dictMut l k f) k2 = dictGet l k2 := by
  induction l with
  | nil => rfl
  | cons e rest ih =>
      obtain ⟨k3, v⟩ := e
      by_cases h3 : k3 = k <;> by_cases h2 : k3 = k2 <;>
        simp_all [dictMut, dictGet]

theorem mem_setDel_ne {α : Type} [DecidableEq α] {l : List α} {a b : α}
    (hmem : b ∈ setDel l a) : b ≠ a := by
  simp only [setDel, List.mem_filter, decide_eq_true_eq] at hmem
  exact hmem.2

theorem not_mem_setDel {α : Type} [DecidableEq α] (l : List α) (a : α) :
    a ∉ setDel l a := fun h => mem_setDel_ne h rfl

theorem mem_setDel_of_mem_of_ne {α : Type} [DecidableEq α] {l : List α} {a b : α}
    (hmem : b ∈ l) (hne : b ≠ a) : b ∈ setDel l a := by
  simp [setDel, List.mem_filter, hmem, hne]

/-! ### String helpers (Python `str` / `os.path` semantics) -/

/-- UTF-8 encoded byte length of a character list. -/
def utf8Len : List Char → Nat
  | [] => 0
  | c :: rest => c.utf8Size + utf8Len rest

/-- UTF-8 encoded byte length of a string (`len(s.encode("utf-8"))`). -/
def utf8ByteLen (s : String) : Nat := utf8Len s.data

/-- Modelled from the spec: `truncate_string_byte` from pynicotine/utils.py
(not under src/): truncates a string to fit inside a byte limit.  Python
slices the UTF-8 bytes at the limit and decodes ignoring the partial
trailing sequence, i.e. keeps the longest character prefix whose encoding
fits in `limit` bytes. -/
def truncChars : List Char → Nat → List Char
  | [], _ => []
  | c :: rest, limit =>
      if c.utf8Size ≤ limit then c :: truncChars rest (limit - c.utf8Size)
      else []

/-- Modelled from the spec: `truncate_string_byte` on strings. -/
def truncateStringByte (s : String) (limit : Nat) : String :=
  (truncChars s.data limit).asString

/-- `virtual_path.replace("/", "\\")` (single-character replacement). -/
def replaceSlashes (s : String) : String :=
  (s.data.map (fun c => if c = '/' then '\\' else c)).asString

/-- `s.split("\\")[-1]`: the suffix after the last backslash. -/
def lastPathComponent (s : String) : String :=
  ((s.data.reverse.takeWhile (fun c => decide (c ≠ '\\'))).reverse).asString

/-- `os.path.splitext` on a basename (no separators): the extension starts
at the last dot, unless every character before that dot is a dot. -/
def splitext (s : String) : String × String :=
  match (s.data.reverse.takeWhile (fun c => decide (c ≠ '.'))).length,
        s.data.any (fun c => decide (c = '.')) with
  | _, false => (s, "")
  | tailLen, true =>
      let i := s.data.length - tailLen - 1
      if (s.data.take i).all (fun c => decide (c = '.')) then (s, "")
      else ((s.data.take i).asString, (s.data.drop i).asString)

/-- `os.path.join(folder, basename)` with a relative second component. -/
def pjoin (a b : String) : String := a ++ "/" ++ b

/-- `folder_path.rstrip("\\")`. -/
def rstripBackslash (s : String) : String :=
  ((s.data.reverse.dropWhile (fun c => decide (c = '\\'))).reverse).asString

/-- `s.lstrip("\\")`. -/
def lstripBackslash (s : String) : String :=
  (s.data.dropWhile (fun c => decide (c = '\\'))).asString

/-- `target_folders.replace("\\", os.sep)` with `os.sep = "/"`. -/
def backslashToSep (s : String) : String :=
  (s.data.map (fun c => if c = '\\' then '/' else c)).asString

theorem utf8Len_append (l1 l2 : List Char) :
    utf8Len (l1 ++ l2) = utf8Len l1 + utf8Len l2 := by
  induction l1 with
  | nil => simp [utf8Len]
  | cons c rest ih => simp [utf8Len, ih]; omega

theorem utf8Len_truncChars (l : List Char) (limit : Nat) :
    utf8Len (truncChars l limit) ≤ limit := by
  induction l generalizing limit with
  | nil => simp [truncChars, utf8Len]
  | cons c rest ih =>
      by_cases h : c.utf8Size ≤ limit
      · simp only [truncChars, if_pos h, utf8Len]
        have := ih (limit - c.utf8Size)
        omega
      · simp [truncChars, if_neg h, utf8Len]

theorem utf8ByteLen_truncate (s : String) (limit : Nat) :
    utf8ByteLen (truncateStringByte s limit) ≤ limit := by
  have h := utf8Len_truncChars s.data limit
  simpa [utf8ByteLen, truncateStringByte, List.asString] using h

theorem utf8ByteLen_append (a b : String) :
    utf8ByteLen (a ++ b) = utf8ByteLen a + utf8ByteLen b := by
  simpa [utf8ByteLen, String.data_append] using utf8Len_append a.data b.data

/-! ### Configuration and environment -/

/-- The configuration sections consulted by the two queue managers. -/
structure Config where
  enablefilters : Bool := false
  filterValid : Bool := true
  usernamesubfolders : Bool := false
  downloaddir : String := "dl"
  incompletedir : String := "inc"
  autoclearDownloads : Bool := false
  autoclearUploads : Bool := false
  fifoqueue : Bool := false
  filelimit : Int := 0
  queuelimit : Int := 0
  friendsnolimits : Bool := false
  preferfriends : Bool := false
  notificationPopupFile : Bool := false
  notificationPopupFolder : Bool := false

/-- External collaborators: configuration, peer statuses, shares state,
filesystem queries, locale collation, the compiled download filter and a
bound on filesystem scan loops. -/
structure Env where
  cfg : Config := {}
  selfStatus : UserStatus := .online
  userStatus : String → Option UserStatus := fun _ => some .online
  sharesInitialized : Bool := true
  buddies : List (String × Bool) := []
  filterMatches : String → Bool := fun _ => false
  fsIsFile : String → Bool := fun _ => false
  fsExists : String → Bool := fun _ => false
  fsIsDir : String → Bool := fun _ => true
  fsFileSize : String → Nat := fun _ => 0
  namemax : String → Option Nat := fun _ => some 255
  osMoveError : String → String → Bool := fun _ _ => false
  strxfrm : String → String := id
  fuel : Nat := 1000

/-! ### Registry state -/

/-- The combined mutable state of one transfer registry (the download and
upload managers each own one copy; the upload-only and download-only fields
are unused by the other side).  Dicts are insertion-ordered association
lists; transfers are keyed by `username ++ virtual_path` exactly as in the
source, the partitions hold `(username, virtual_path)` pairs
(`active` additionally carries the token it is keyed under). -/
structure St where
  transfers : List (String × Transfer) := []
  queuedKeys : List (String × String) := []
  activeKeys : List (String × Nat × String) := []
  failedKeys : List (String × String) := []
  userQueueSizes : List (String × Nat) := []
  userQueueLimits : List (String × Nat) := []
  pendingQueueKeys : List (String × String) := []
  folderLimits : List (String × Nat) := []
  requestedFolders : List (String × List (String × Option String)) := []
  userUpdateCounter : Nat := 0
  userUpdateCounters : List (String × Nat) := []
  privilegedUsers : List String := []
  pendingShutdown : Bool := false
  events : List Ev := []
  peerMsgs : List (String × PMsg) := []
  netMsgs : List NMsg := []
  notifications : List (String × Bool) := []
  fsOps : List FsOp := []

/-- `self.transfers.get(username + virtual_path)`. -/
def getT (s : St) (u p : String) : Option Transfer :=
  dictGet s.transfers (u ++ p)

/-- Mutate the transfer record stored under a key. -/
def mutT (s : St) (u p : String) (f : Transfer → Transfer) : St :=
  { s with transfers := dictMut s.transfers (u ++ p) f }

/-- The per-user queued dict `self.queued_users.get(username, {})`, as the
ordered list of that user's queued virtual paths. -/
def queuedPathsOf (s : St) (u : String) : List String :=
  (s.queuedKeys.filter (fun e => decide (e.1 = u))).map (·.2)

/-- The users present in `self.queued_users`, ordered by first appearance. -/
def queuedUserNames (s : St) : List String :=
  (s.queuedKeys.map (·.1)).eraseDups

/-- `transfer in self.active_users.get(username, {}).values()`. -/
def isActive (s : St) (u p : String) : Bool :=
  s.activeKeys.any (fun e => decide (e.1 = u) && decide (e.2.2 = p))

/-! ### Base registry operations

Modelled from the spec (§4.1 Transfer Registry): the shared base class
`Transfers` (pynicotine/transfers.py) is not under src/. -/

/-- Modelled from the spec: `enqueue` — "moves a transfer into the `queued`
partition" and sets status `QUEUED` (state machine entry point); maintains
the per-user queued byte-total aggregate. -/
def baseEnqueue (s : St) (u p : String) : St :=
  let sz := ((getT s u p).map (·.size)).getD 0
  { mutT s u p (fun t => { t with status := .queued }) with
    queuedKeys := setAdd s.queuedKeys (u, p),
    userQueueSizes := dictPut s.userQueueSizes u
      (((dictGet s.userQueueSizes u).getD 0) + sz) }

/-- Modelled from the spec: `dequeue` — "removes from `queued`; inverse of
enqueue; idempotent". -/
def baseDequeue (s : St) (u p : String) : St :=
  let sz := ((getT s u p).map (·.size)).getD 0
  if (u, p) ∈ s.queuedKeys then
    { s with
      queuedKeys := setDel s.queuedKeys (u, p),
      userQueueSizes := dictPut s.userQueueSizes u
        (((dictGet s.userQueueSizes u).getD 0) - sz) }
  else s

/-- Modelled from the spec: `activate` — "moves from `queued`/fresh to
`active`, keyed by `token`; clears any failed-state bookkeeping". -/
def baseActivate (s : St) (u p : String) (token : Nat) : St :=
  let s1 := baseDequeue s u p
  let s2 := { s1 with
    activeKeys := s1.activeKeys ++ [(u, token, p)],
    failedKeys := setDel s1.failedKeys (u, p) }
  mutT s2 u p (fun t => { t with token := some token })

/-- Modelled from the spec: `deactivate` — "removes from `active`". -/
def baseDeactivate (s : St) (u p : String) : St :=
  { s with activeKeys :=
      s.activeKeys.filter (fun e => decide (¬ (e.1 = u ∧ e.2.2 = p))) }

/-- Modelled from the spec: `fail` — "moves into the `failed` partition
without touching socket/file state". -/
def baseFail (s : St) (u p : String) : St :=
  { s with failedKeys := setAdd s.failedKeys (u, p) }

/-- Modelled from the spec: `unfail` — inverse of `fail`. -/
def baseUnfail (s : St) (u p : String) : St :=
  { s with failedKeys := setDel s.failedKeys (u, p) }

/-- Modelled from the spec: `_close_file` — releases the transfer's open
file handle. -/
def closeFile (s : St) (u p : String) : St :=
  mutT s u p (fun t => { t with fileHandle := none })

/-- Append a network-thread message (`core.send_message_to_network_thread`). -/
def addNet (s : St) (m : NMsg) : St := { s with netMsgs := s.netMsgs ++ [m] }

/-- Append a peer message (`core.send_message_to_peer`). -/
def addPeer (s : St) (u : String) (m : PMsg) : St :=
  { s with peerMsgs := s.peerMsgs ++ [(u, m)] }

/-- Append a UI event (`events.emit`). -/
def addEvent (s : St) (e : Ev) : St := { s with events := s.events ++ [e] }

/-- Append a notification (`core.notifications.show_download_notification`):
title and high-priority flag. -/
def addNotification (s : St) (title : String) (highPriority : Bool) : St :=
  { s with notifications := s.notifications ++ [(title, highPriority)] }

/-- Record a filesystem side effect. -/
def addFsOp (s : St) (op : FsOp) : St := { s with fsOps := s.fsOps ++ [op] }

/-! ### Download-side operations (src/pynicotine/downloads.py) -/

/-- `Downloads._dequeue_transfer`: base dequeue plus removal of any pending
deferred `QueueUpload` message. -/
def dDequeueTransfer (s : St) (u p : String) : St :=
  let s1 := baseDequeue s u p
  { s1 with pendingQueueKeys := setDel s1.pendingQueueKeys (u, p) }

/-- `Downloads._update_transfer`: emits an update event. -/
def dUpdateTransfer (s : St) (u p : String) : St :=
  addEvent s (.updateDownload u p)

/-- `Downloads._abort_transfer`, first phase: reset the retry flags, close
the socket and file handle, deactivate, dequeue, unfail (`t0` is the record
stored under the key when the call starts). -/
def dAbortPre (s : St) (u p : String) (t0 : Transfer) : St :=
  let s1 := mutT s u p (fun t =>
    { t with legacyAttempt := false, sizeChanged := false })
  let s2 :=
    if t0.sock then
      addNet (mutT s1 u p (fun t => { t with sock := false }))
        (.closeConnection u p)
    else s1
  let s3 := if t0.fileHandle.isSome then closeFile s2 u p else s2
  let s4 := baseDeactivate s3 u p
  let s5 := dDequeueTransfer s4 u p
  baseUnfail s5 u p

/-- `Downloads._abort_transfer`. -/
def dAbortTransfer (s : St) (u p : String) (status : Option TStatus) : St :=
  match getT s u p with
  | none => s
  | some t0 =>
    let s6 := dAbortPre s u p t0
    match status with
    | none => s6
    | some st =>
      let s7 := mutT s6 u p (fun t => { t with status := st })
      let s8 :=
        if st ∉ [TStatus.finished, TStatus.filtered, TStatus.paused] then
          baseFail s7 u p
        else s7
      addEvent s8 (.abortDownload u p st)

/-! ### Upload-side operations (src/pynicotine/uploads.py) -/

/-- `Uploads.is_buddy_prioritized`. -/
def isBuddyPrioritized (env : Env) (u : String) : Bool :=
  if u = "" then false
  else
    match dictGet env.buddies u with
    | none => false
    | some prioritized => env.cfg.preferfriends || prioritized

/-- `Uploads.is_privileged`. -/
def isPrivileged (env : Env) (s : St) (u : String) : Bool :=
  if u = "" then false
  else if u ∈ s.privilegedUsers then true
  else isBuddyPrioritized env u

/-- `Uploads._update_user_counter`: bumps the round-robin last-served
counter for a user that is queued and not active. -/
def updateUserCounter (s : St) (u : String) : St :=
  if decide (queuedPathsOf s u ≠ []) &&
     !(s.activeKeys.any (fun e => decide (e.1 = u))) then
    { s with
      userUpdateCounter := s.userUpdateCounter + 1,
      userUpdateCounters :=
        dictPut s.userUpdateCounters u (s.userUpdateCounter + 1) }
  else s

/-- `Uploads._dequeue_transfer`: base dequeue; drops the user's round-robin
counter entry once they have no queued uploads left. -/
def uDequeueTransfer (s : St) (u p : String) : St :=
  let s1 := baseDequeue s u p
  if queuedPathsOf s1 u = [] then
    { s1 with userUpdateCounters := dictDel s1.userUpdateCounters u }
  else s1

/-- `Uploads._activate_transfer`: base activate, then removes the user's
round-robin counter entry. -/
def uActivateTransfer (s : St) (u p : String) (token : Nat) : St :=
  let s1 := baseActivate s u p token
  { s1 with userUpdateCounters := dictDel s1.userUpdateCounters u }

/-- `Uploads._update_transfer`: refreshes the user counter unless the user
already has a counter entry and this upload is still queued, then emits an
update event. -/
def uUpdateTransfer (s : St) (u p : String) : St :=
  let s1 :=
    if (dictGet s.userUpdateCounters u).isNone ||
       !(decide (p ∈ queuedPathsOf s u)) then
      updateUserCounter s u
    else s
  addEvent s1 (.updateUpload u p)

/-- `Uploads._abort_transfer`, first phase: close the socket and file
handle (or notify a queued peer of the denial), deactivate, dequeue,
unfail, refresh the user counter. -/
def uAbortPre (s : St) (u p : String) (t0 : Transfer)
    (deniedMessage : Option TStatus) : St :=
  let s1 :=
    if t0.sock then
      addNet (mutT s u p (fun t => { t with sock := false }))
        (.closeConnection u p)
    else s
  let s2 :=
    if t0.fileHandle.isSome then closeFile s1 u p
    else
      match deniedMessage with
      | some dm =>
          if p ∈ queuedPathsOf s1 u then addPeer s1 u (.uploadDenied p dm)
          else s1
      | none => s1
  let s3 := baseDeactivate s2 u p
  let s4 := uDequeueTransfer s3 u p
  let s5 := baseUnfail s4 u p
  updateUserCounter s5 u

/-- `Uploads._abort_transfer`. -/
def uAbortTransfer (s : St) (u p : String)
    (deniedMessage : Option TStatus) (status : Option TStatus) : St :=
  match getT s u p with
  | none => s
  | some t0 =>
    let s6 := uAbortPre s u p t0 deniedMessage
    match status with
    | none => s6
    | some st =>
      let s7 := mutT s6 u p (fun t => { t with status := st })
      let s8 :=
        if st ∉ [TStatus.finished, TStatus.cancelled] then baseFail s7 u p
        else s7
      addEvent s8 (.abortUpload u p st)

/-! ### Projection lemmas for the registry operations -/

section Projections

variable (s : St) (u p : String)

@[simp] theorem getT_mutT (f : Transfer → Transfer) :
    getT (mutT s u p f) u p = (getT s u p).map f := by
  simp [getT, mutT, dictGet_mut]

@[simp] theorem transfers_baseDequeue : (baseDequeue s u p).transfers = s.transfers := by
  unfold baseDequeue; split <;> rfl

@[simp] theorem activeKeys_baseDequeue : (baseDequeue s u p).activeKeys = s.activeKeys := by
  unfold baseDequeue; split <;> rfl

@[simp] theorem failedKeys_baseDequeue : (baseDequeue s u p).failedKeys = s.failedKeys := by
  unfold baseDequeue; split <;> rfl

@[simp] theorem events_baseDequeue : (baseDequeue s u p).events = s.events := by
  unfold baseDequeue; split <;> rfl

theorem queuedKeys_baseDequeue_not_mem : (u, p) ∉ (baseDequeue s u p).queuedKeys := by
  unfold baseDequeue
  split
  · exact not_mem_setDel _ _
  · assumption

@[simp] theorem transfers_uDequeue : (uDequeueTransfer s u p).transfers = s.transfers := by
  simp only [uDequeueTransfer]; split <;> simp

@[simp] theorem activeKeys_uDequeue : (uDequeueTransfer s u p).activeKeys = s.activeKeys := by
  simp only [uDequeueTransfer]; split <;> simp

@[simp] theorem failedKeys_uDequeue : (uDequeueTransfer s u p).failedKeys = s.failedKeys := by
  simp only [uDequeueTransfer]; split <;> simp

@[simp] theorem events_uDequeue : (uDequeueTransfer s u p).events = s.events := by
  simp only [uDequeueTransfer]; split <;> simp

@[simp] theorem queuedKeys_uDequeue :
    (uDequeueTransfer s u p).queuedKeys = (baseDequeue s u p).queuedKeys := by
  simp only [uDequeueTransfer]; split <;> simp

@[simp] theorem transfers_dDequeue : (dDequeueTransfer s u p).transfers = s.transfers := by
  simp [dDequeueTransfer]

@[simp] theorem activeKeys_dDequeue : (dDequeueTransfer s u p).activeKeys = s.activeKeys := by
  simp [dDequeueTransfer]

@[simp] theorem failedKeys_dDequeue : (dDequeueTransfer s u p).failedKeys = s.failedKeys := by
  simp [dDequeueTransfer]

@[simp] theorem events_dDequeue : (dDequeueTransfer s u p).events = s.events := by
  simp [dDequeueTransfer]

@[simp] theorem queuedKeys_dDequeue :
    (dDequeueTransfer s u p).queuedKeys = (baseDequeue s u p).queuedKeys := by
  simp [dDequeueTransfer]

@[simp] theorem transfers_updateUserCounter (w : String) :
    (updateUserCounter s w).transfers = s.transfers := by
  unfold updateUserCounter; split <;> rfl

@[simp] theorem queuedKeys_updateUserCounter (w : String) :
    (updateUserCounter s w).queuedKeys = s.queuedKeys := by
  unfold updateUserCounter; split <;> rfl

@[simp] theorem activeKeys_updateUserCounter (w : String) :
    (updateUserCounter s w).activeKeys = s.activeKeys := by
  unfold updateUserCounter; split <;> rfl

@[simp] theorem failedKeys_updateUserCounter (w : String) :
    (updateUserCounter s w).failedKeys = s.failedKeys := by
  unfold updateUserCounter; split <;> rfl

@[simp] theorem events_updateUserCounter (w : String) :
    (updateUserCounter s w).events = s.events := by
  unfold updateUserCounter; split <;> rfl

theorem isActive_baseDeactivate : isActive (baseDeactivate s u p) u p = false := by
  simp only [isActive, baseDeactivate, List.any_eq_false]
  intro e he
  simp only [List.mem_filter, decide_eq_true_eq] at he
  rcases he with ⟨_, hne⟩
  by_contra hcon
  simp only [Bool.not_eq_false, Bool.and_eq_true, decide_eq_true_eq] at hcon
  exact hne ⟨hcon.1, hcon.2⟩

end Projections

section AbortLemmas

variable (s : St) (u p : String) (t0 : Transfer)

@[simp] theorem getT_addNet (m : NMsg) : getT (addNet s m) u p = getT s u p := rfl

@[simp] theorem getT_addPeer (w : String) (m : PMsg) :
    getT (addPeer s w m) u p = getT s u p := rfl

@[simp] theorem getT_addEvent (e : Ev) : getT (addEvent s e) u p = getT s u p := rfl

@[simp] theorem getT_baseDequeue (w q : String) :
    getT (baseDequeue s w q) u p = getT s u p := by
  simp [getT, transfers_baseDequeue]

@[simp] theorem getT_dDequeue (w q : String) :
    getT (dDequeueTransfer s w q) u p = getT s u p := by
  simp [getT, transfers_dDequeue]

@[simp] theorem getT_uDequeue (w q : String) :
    getT (uDequeueTransfer s w q) u p = getT s u p := by
  simp [getT, transfers_uDequeue]

@[simp] theorem getT_baseUnfail (w q : String) :
    getT (baseUnfail s w q) u p = getT s u p := rfl

@[simp] theorem getT_baseFail (w q : String) :
    getT (baseFail s w q) u p = getT s u p := rfl

@[simp] theorem getT_baseDeactivate (w q : String) :
    getT (baseDeactivate s w q) u p = getT s u p := rfl

@[simp] theorem getT_updateUserCounter (w : String) :
    getT (updateUserCounter s w) u p = getT s u p := by
  simp [getT, transfers_updateUserCounter]

theorem getT_dAbortPre (h : getT s u p = some t0) :
    getT (dAbortPre s u p t0) u p =
      some { t0 with legacyAttempt := false, sizeChanged := false,
                     sock := false, fileHandle := none } := by
  obtain ⟨un, vp, fp, sz, stt, tok, sk, fh, la, sc, off, qp⟩ := t0
  cases sk <;> cases fh <;>
    simp_all [dAbortPre, closeFile, Option.map_map, Function.comp]

theorem getT_uAbortPre (dm : Option TStatus) (h : getT s u p = some t0) :
    getT (uAbortPre s u p t0 dm) u p =
      some { t0 with sock := false, fileHandle := none } := by
  obtain ⟨un, vp, fp, sz, stt, tok, sk, fh, la, sc, off, qp⟩ := t0
  cases sk <;> cases fh <;> cases dm <;>
    simp_all [uAbortPre, closeFile, Option.map_map, Function.comp,
      apply_ite (fun st => getT st u p)]

@[simp] theorem queuedKeys_baseUnfail (w q : String) :
    (baseUnfail s w q).queuedKeys = s.queuedKeys := rfl

@[simp] theorem queuedKeys_baseFail (w q : String) :
    (baseFail s w q).queuedKeys = s.queuedKeys := rfl

@[simp] theorem queuedKeys_baseDeactivate (w q : String) :
    (baseDeactivate s w q).queuedKeys = s.queuedKeys := rfl

@[simp] theorem failedKeys_baseUnfail (w q : String) :
    (baseUnfail s w q).failedKeys = setDel s.failedKeys (w, q) := rfl

@[simp] theorem failedKeys_baseFail (w q : String) :
    (baseFail s w q).failedKeys = setAdd s.failedKeys (w, q) := rfl

@[simp] theorem failedKeys_baseDeactivate (w q : String) :
    (baseDeactivate s w q).failedKeys = s.failedKeys := rfl

@[simp] theorem activeKeys_baseUnfail (w q : String) :
    (baseUnfail s w q).activeKeys = s.activeKeys := rfl

@[simp] theorem activeKeys_baseFail (w q : String) :
    (baseFail s w q).activeKeys = s.activeKeys := rfl

@[simp] theorem activeKeys_mutT (w q : String) (f : Transfer → Transfer) :
    (mutT s w q f).activeKeys = s.activeKeys := rfl

@[simp] theorem queuedKeys_mutT (w q : String) (f : Transfer → Transfer) :
    (mutT s w q f).queuedKeys = s.queuedKeys := rfl

@[simp] theorem failedKeys_mutT (w q : String) (f : Transfer → Transfer) :
    (mutT s w q f).failedKeys = s.failedKeys := rfl

@[simp] theorem events_mutT (w q : String) (f : Transfer → Transfer) :
    (mutT s w q f).events = s.events := rfl

@[simp] theorem events_baseUnfail (w q : String) :
    (baseUnfail s w q).events = s.events := rfl

@[simp] theorem events_baseFail (w q : String) :
    (baseFail s w q).events = s.events := rfl

@[simp] theorem events_addEvent (e : Ev) :
    (addEvent s e).events = s.events ++ [e] := rfl

theorem queuedKeys_dAbortPre : (u, p) ∉ (dAbortPre s u p t0).queuedKeys := by
  simp only [dAbortPre, queuedKeys_baseUnfail, queuedKeys_dDequeue]
  exact queuedKeys_baseDequeue_not_mem _ u p

theorem queuedKeys_uAbortPre (dm : Option TStatus) :
    (u, p) ∉ (uAbortPre s u p t0 dm).queuedKeys := by
  simp only [uAbortPre, queuedKeys_updateUserCounter, queuedKeys_baseUnfail,
    queuedKeys_uDequeue]
  exact queuedKeys_baseDequeue_not_mem _ u p

theorem any_filter_deactivated (l : List (String × Nat × String)) :
    ((l.filter (fun e => decide (¬ (e.1 = u ∧ e.2.2 = p)))).any
      (fun e => decide (e.1 = u) && decide (e.2.2 = p))) = false := by
  rw [List.any_eq_false]
  intro e he
  simp only [List.mem_filter, decide_eq_true_eq] at he
  rcases he with ⟨_, hne⟩
  by_contra hcon
  simp only [Bool.not_eq_false, Bool.and_eq_true, decide_eq_true_eq] at hcon
  exact hne ⟨hcon.1, hcon.2⟩

@[simp] theorem activeKeys_uUpdateTransfer (w q : String) :
    (uUpdateTransfer s w q).activeKeys = s.activeKeys := by
  simp only [uUpdateTransfer]
  split <;> simp [addEvent]

theorem isActive_dAbortPre : isActive (dAbortPre s u p t0) u p = false := by
  simp only [dAbortPre, isActive, activeKeys_baseUnfail, activeKeys_dDequeue,
    baseDeactivate]
  exact any_filter_deactivated u p _

theorem isActive_uAbortPre (dm : Option TStatus) :
    isActive (uAbortPre s u p t0 dm) u p = false := by
  simp only [uAbortPre, isActive, activeKeys_updateUserCounter,
    activeKeys_baseUnfail, activeKeys_uDequeue, baseDeactivate]
  exact any_filter_deactivated u p _

theorem mem_setAdd_self {α : Type} [DecidableEq α] (l : List α) (a : α) :
    a ∈ setAdd l a := by
  unfold setAdd; split
  · assumption
  · simp

@[simp] theorem queuedKeys_addEvent (e : Ev) :
    (addEvent s e).queuedKeys = s.queuedKeys := rfl

@[simp] theorem activeKeys_addEvent (e : Ev) :
    (addEvent s e).activeKeys = s.activeKeys := rfl

@[simp] theorem failedKeys_addEvent (e : Ev) :
    (addEvent s e).failedKeys = s.failedKeys := rfl

@[simp] theorem transfers_addEvent (e : Ev) :
    (addEvent s e).transfers = s.transfers := rfl

@[simp] theorem queuedKeys_addNet (m : NMsg) :
    (addNet s m).queuedKeys = s.queuedKeys := rfl

@[simp] theorem activeKeys_addNet (m : NMsg) :
    (addNet s m).activeKeys = s.activeKeys := rfl

@[simp] theorem failedKeys_addNet (m : NMsg) :
    (addNet s m).failedKeys = s.failedKeys := rfl

@[simp] theorem queuedKeys_addPeer (w : String) (m : PMsg) :
    (addPeer s w m).queuedKeys = s.queuedKeys := rfl

@[simp] theorem activeKeys_addPeer (w : String) (m : PMsg) :
    (addPeer s w m).activeKeys = s.activeKeys := rfl

@[simp] theorem failedKeys_addPeer (w : String) (m : PMsg) :
    (addPeer s w m).failedKeys = s.failedKeys := rfl

theorem failedKeys_dAbortPre : (u, p) ∉ (dAbortPre s u p t0).failedKeys := by
  simp only [dAbortPre, failedKeys_baseUnfail]
  exact not_mem_setDel _ _

theorem failedKeys_uAbortPre (dm : Option TStatus) :
    (u, p) ∉ (uAbortPre s u p t0 dm).failedKeys := by
  simp only [uAbortPre, failedKeys_updateUserCounter, failedKeys_baseUnfail]
  exact not_mem_setDel _ _

end AbortLemmas

/-- Claim C1 (amended): for every transfer present in the registry and every
non-null status `st`, aborting closes the socket and the file handle, leaves
the transfer out of the queued and active partitions, sets its status to
`st`, always emits the abort (update) event, and re-adds the transfer to the
failed partition if and only if `st` lies outside the direction's exempt
set — which is `{FINISHED, FILTERED, PAUSED}` for the download-side abort
but `{FINISHED, CANCELLED}` for the upload-side abort (the two sides do not
share one exempt set: a paused upload is re-failed, a cancelled download is
re-failed). -/
theorem abort_transfer_spec (s : St) (u p : String) (t0 : Transfer) (st : TStatus)
    (h : getT s u p = some t0) :
    (getT (dAbortTransfer s u p (some st)) u p =
        some { t0 with legacyAttempt := false, sizeChanged := false,
                       sock := false, fileHandle := none, status := st } ∧
      (u, p) ∉ (dAbortTransfer s u p (some st)).queuedKeys ∧
      isActive (dAbortTransfer s u p (some st)) u p = false ∧
      ((u, p) ∈ (dAbortTransfer s u p (some st)).failedKeys ↔
        st ∉ [TStatus.finished, TStatus.filtered, TStatus.paused]) ∧
      Ev.abortDownload u p st ∈ (dAbortTransfer s u p (some st)).events) ∧
    (getT (uAbortTransfer s u p none (some st)) u p =
        some { t0 with sock := false, fileHandle := none, status := st } ∧
      (u, p) ∉ (uAbortTransfer s u p none (some st)).queuedKeys ∧
      isActive (uAbortTransfer s u p none (some st)) u p = false ∧
      ((u, p) ∈ (uAbortTransfer s u p none (some st)).failedKeys ↔
        st ∉ [TStatus.finished, TStatus.cancelled]) ∧
      Ev.abortUpload u p st ∈ (uAbortTransfer s u p none (some st)).events) := by
  have hd := getT_dAbortPre s u p t0 h
  have hu := getT_uAbortPre s u p t0 none h
  have hdq := queuedKeys_dAbortPre s u p t0
  have huq := queuedKeys_uAbortPre s u p t0 none
  have hda := isActive_dAbortPre s u p t0
  have hua := isActive_uAbortPre s u p t0 none
  have hdf := failedKeys_dAbortPre s u p t0
  have huf := failedKeys_uAbortPre s u p t0 none
  refine ⟨⟨?_, ?_, ?_, ?_, ?_⟩, ⟨?_, ?_, ?_, ?_, ?_⟩⟩
  · simp only [dAbortTransfer, h]
    split <;> simp [hd]
  · simp only [dAbortTransfer, h]
    split <;> simpa using hdq
  · simp only [dAbortTransfer, h]
    split <;> simpa [isActive] using hda
  · by_cases hst : st ∈ [TStatus.finished, TStatus.filtered, TStatus.paused]
    · simp only [dAbortTransfer, h, hst, not_true_eq_false, if_false,
        failedKeys_addEvent, failedKeys_mutT]
      simpa [hst] using hdf
    · simp only [dAbortTransfer, h, hst, not_false_eq_true, if_true,
        failedKeys_addEvent, failedKeys_baseFail, failedKeys_mutT]
      simpa [hst] using mem_setAdd_self (dAbortPre s u p t0).failedKeys (u, p)
  · simp only [dAbortTransfer, h]
    split <;> simp
  · simp only [uAbortTransfer, h]
    split <;> simp [hu]
  · simp only [uAbortTransfer, h]
    split <;> simpa using huq
  · simp only [uAbortTransfer, h]
    split <;> simpa [isActive] using hua
  · by_cases hst : st ∈ [TStatus.finished, TStatus.cancelled]
    · simp only [uAbortTransfer, h, hst, not_true_eq_false, if_false,
        failedKeys_addEvent, failedKeys_mutT]
      simpa [hst] using huf
    · simp only [uAbortTransfer, h, hst, not_false_eq_true, if_true,
        failedKeys_addEvent, failedKeys_baseFail, failedKeys_mutT]
      simpa [hst] using mem_setAdd_self (uAbortPre s u p t0 none).failedKeys (u, p)
  · simp only [uAbortTransfer, h]
    split <;> simp

/-- Claim C1 is false as stated: aborting an upload with status `PAUSED`
re-adds it to the failed partition, although `PAUSED` belongs to the
claim's exempt set `{finished, filtered/cancelled, paused}` (the upload
side only exempts `{FINISHED, CANCELLED}`).  Concrete input: the sole
transfer of user `"u"` with path `"f"`. -/
theorem upload_abort_paused_refails :
    ("u", "f") ∈ (uAbortTransfer
      { transfers := [("uf", { username := "u", virtualPath := "f" })] }
      "u" "f" none (some TStatus.paused)).failedKeys := by decide

/-- Witness for the amended claim C1: a concrete abort discharging the
membership hypothesis. -/
theorem abort_transfer_spec_witness :
    ("u", "f") ∉ (dAbortTransfer
      { transfers := [("uf", { username := "u", virtualPath := "f",
                               sock := true, fileHandle := some "inc/f" })],
        queuedKeys := [("u", "f")] }
      "u" "f" (some TStatus.paused)).failedKeys := by
  have h := abort_transfer_spec
    { transfers := [("uf", { username := "u", virtualPath := "f",
                             sock := true, fileHandle := some "inc/f" })],
      queuedKeys := [("u", "f")] }
    "u" "f"
    { username := "u", virtualPath := "f", sock := true,
      fileHandle := some "inc/f" }
    TStatus.paused (by decide)
  intro hmem
  have h4 := (h.1.2.2.2.1).mp hmem
  simp at h4

/-! ### Claim C10: upload queue limits -/

/-- `Uploads.is_queue_limit_reached`.  The limits come from the
configuration as integers; Python's chained comparison
`len(...) >= file_limit >= 1` is the conjunction of both comparisons. -/
def isQueueLimitReached (env : Env) (s : St) (username : String) :
    Bool × Option TStatus :=
  let fileLimit : Int := env.cfg.filelimit
  let queueSizeLimit : Int := env.cfg.queuelimit * 1024 * 1024
  if ((queuedPathsOf s username).length : Int) ≥ fileLimit ∧ fileLimit ≥ 1 then
    (true, some .tooManyFiles)
  else if (((dictGet s.userQueueSizes username).getD 0 : Nat) : Int) ≥ queueSizeLimit
      ∧ queueSizeLimit ≥ 1 then
    (true, some .tooManyMegabytes)
  else (false, none)

/-- Claim C10: with a per-user file limit below 1 the check never reports
`TOO_MANY_FILES`, with a queue byte limit below 1 it never reports
`TOO_MANY_MEGABYTES`; with both limits configured to 0 it returns
`(false, no reason)` regardless of the queue state. -/
theorem upload_queue_limit_disabled (env : Env) (s : St) (username : String) :
    (env.cfg.filelimit < 1 →
      (isQueueLimitReached env s username).2 ≠ some TStatus.tooManyFiles) ∧
    (env.cfg.queuelimit * 1024 * 1024 < 1 →
      (isQueueLimitReached env s username).2 ≠ some TStatus.tooManyMegabytes) ∧
    (env.cfg.filelimit = 0 → env.cfg.queuelimit = 0 →
      isQueueLimitReached env s username = (false, none)) := by
  refine ⟨?_, ?_, ?_⟩
  · intro hf
    unfold isQueueLimitReached
    simp only []
    split_ifs with h1 h2
    · exact absurd hf (by omega)
    · simp
    · simp
  · intro hq
    unfold isQueueLimitReached
    simp only []
    split_ifs with h1 h2
    · simp
    · exact absurd hq (by omega)
    · simp
  · intro hf hq
    unfold isQueueLimitReached
    simp only []
    split_ifs with h1 h2
    · exact absurd hf (by omega)
    · exact absurd hq (by omega)
    · rfl

/-- Witness for claim C10: zero limits and a heavily loaded queue state
still yield `(false, none)`. -/
theorem upload_queue_limit_disabled_witness :
    isQueueLimitReached { cfg := { filelimit := 0, queuelimit := 0 } }
      { queuedKeys := [("u", "a"), ("u", "b"), ("u", "c")],
        userQueueSizes := [("u", 999999999)] } "u" = (false, none) :=
  (upload_queue_limit_disabled
    { cfg := { filelimit := 0, queuelimit := 0 } }
    { queuedKeys := [("u", "a"), ("u", "b"), ("u", "c")],
      userQueueSizes := [("u", 999999999)] } "u").2.2 rfl rfl

/-! ### Claim C3: upload candidate selection -/

/-- The value `oldest_time` takes at the top of a round-robin loop
iteration: `if not oldest_time: oldest_time = update_time + 1` (Python
treats both `None` and `0` as falsy). -/
def rrNext (o : Option Nat) (c : Nat) : Nat :=
  match o with
  | none => c + 1
  | some 0 => c + 1
  | some (m + 1) => m + 1

/-- The round-robin selection loop of `_get_upload_candidate`: walks the
`_user_update_counters` dict carrying `(oldest_time, target_username)`. -/
def rrPick (elig : String → Bool) :
    List (String × Nat) → Option Nat × Option String → Option Nat × Option String
  | [], st => st
  | (w, c) :: rest, (o, tg) =>
      if elig w then
        let m1 := rrNext o c
        if c < m1 then rrPick elig rest (some c, some w)
        else rrPick elig rest (some m1, tg)
      else rrPick elig rest (o, tg)

/-- The FIFO selection loop of `_get_upload_candidate`: first globally
queued upload whose user passes the privilege restriction and has a
pending update-counter entry. -/
def fifoScan (priv : List String) (counters : List (String × Nat)) :
    List (String × String) → Option String
  | [] => none
  | (w, _) :: rest =>
      if priv ≠ [] ∧ w ∉ priv then fifoScan priv counters rest
      else if (dictGet counters w).isNone then fifoScan priv counters rest
      else some w

/-- The privileged users among those having an update-counter entry
(the `privileged_users` set built at the top of `_get_upload_candidate`). -/
def privCandidates (env : Env) (s : St) : List String :=
  (s.userUpdateCounters.map (·.1)).filter (fun w => isPrivileged env s w)

/-- `Uploads._get_upload_candidate`.  Returns the chosen queued upload (as
a `(username, virtual_path)` key) and `has_active_uploads`.  The source
indexes `queued_users[target_username]` directly (users with a counter
entry always have queued uploads); the embedding returns `none` for an
absent user. -/
def getUploadCandidate (env : Env) (s : St) : Option (String × String) × Bool :=
  let isFifo := env.cfg.fifoqueue
  let hasActive := !s.activeKeys.isEmpty
  let priv := privCandidates env s
  let target : Option String :=
    if isFifo then
      fifoScan priv s.userUpdateCounters s.queuedKeys
    else
      (rrPick (fun w => decide (priv = []) || decide (w ∈ priv))
        s.userUpdateCounters (none, none)).2
  match target with
  | none => (none, hasActive)
  | some w =>
      match (queuedPathsOf s w).head? with
      | none => (none, hasActive)
      | some q => (some (w, q), hasActive)

theorem dictGet_dictDel {α : Type} [DecidableEq α] {β : Type}
    (l : List (α × β)) (k : α) : dictGet (dictDel l k) k = none := by
  induction l with
  | nil => rfl
  | cons e rest ih =>
      obtain ⟨k2, v⟩ := e
      by_cases h : k2 = k <;> simp [dictDel, dictGet, h] at ih ⊢ <;>
        simpa [dictDel] using ih

theorem rrNext_pos (m c : Nat) (hm : 0 < m) : rrNext (some m) c = m := by
  cases m with
  | zero => omega
  | succ m2 => rfl

theorem rrPick_go (elig : String → Bool) (l : List (String × Nat))
    (hpos : ∀ e ∈ l, 0 < e.2) (m : Nat) (y : String) (hm : 0 < m)
    (hy : elig y = true) :
    ∃ m2 y2, rrPick elig l (some m, some y) = (some m2, some y2) ∧
      0 < m2 ∧ m2 ≤ m ∧ elig y2 = true ∧
      ((m2 = m ∧ y2 = y) ∨ (y2, m2) ∈ l) ∧
      (∀ e ∈ l, elig e.1 = true → m2 ≤ e.2) := by
  induction l generalizing m y with
  | nil =>
      exact ⟨m, y, rfl, hm, le_refl m, hy, Or.inl ⟨rfl, rfl⟩, by simp⟩
  | cons e rest ih =>
      obtain ⟨w, c⟩ := e
      have hc : 0 < c := hpos (w, c) (List.mem_cons_self _ _)
      have hrest : ∀ x ∈ rest, 0 < x.2 :=
        fun x hx => hpos x (List.mem_cons_of_mem _ hx)
      by_cases hw : elig w = true
      · by_cases hcm : c < m
        · obtain ⟨m2, y2, heq, h0, hle, hel, hach, hmin⟩ := ih hrest c w hc hw
          refine ⟨m2, y2, ?_, h0, by omega, hel, ?_, ?_⟩
          · simpa [rrPick, hw, rrNext_pos m c hm, hcm] using heq
          · rcases hach with ⟨rfl, rfl⟩ | hmem
            · exact Or.inr (List.mem_cons_self _ _)
            · exact Or.inr (List.mem_cons_of_mem _ hmem)
          · intro x hx hex
            rcases List.mem_cons.mp hx with rfl | hxr
            · exact hle
            · exact hmin x hxr hex
        · obtain ⟨m2, y2, heq, h0, hle, hel, hach, hmin⟩ := ih hrest m y hm hy
          refine ⟨m2, y2, ?_, h0, hle, hel, ?_, ?_⟩
          · simpa [rrPick, hw, rrNext_pos m c hm, hcm] using heq
          · rcases hach with ⟨rfl, rfl⟩ | hmem
            · exact Or.inl ⟨rfl, rfl⟩
            · exact Or.inr (List.mem_cons_of_mem _ hmem)
          · intro x hx hex
            rcases List.mem_cons.mp hx with rfl | hxr
            · simp only; omega
            · exact hmin x hxr hex
      · obtain ⟨m2, y2, heq, h0, hle, hel, hach, hmin⟩ := ih hrest m y hm hy
        refine ⟨m2, y2, ?_, h0, hle, hel, ?_, ?_⟩
        · simpa [rrPick, hw] using heq
        · rcases hach with ⟨rfl, rfl⟩ | hmem
          · exact Or.inl ⟨rfl, rfl⟩
          · exact Or.inr (List.mem_cons_of_mem _ hmem)
        · intro x hx hex
          rcases List.mem_cons.mp hx with rfl | hxr
          · exact absurd hex (by simp [hw])
          · exact hmin x hxr hex

theorem rrPick_start (elig : String → Bool) (l : List (String × Nat))
    (hpos : ∀ e ∈ l, 0 < e.2) :
    ((rrPick elig l (none, none)).2 = none ∧ ∀ e ∈ l, elig e.1 = false) ∨
    (∃ m2 y2, rrPick elig l (none, none) = (some m2, some y2) ∧
      (y2, m2) ∈ l ∧ elig y2 = true ∧
      (∀ e ∈ l, elig e.1 = true → m2 ≤ e.2)) := by
  induction l with
  | nil => exact Or.inl ⟨rfl, by simp⟩
  | cons e rest ih =>
      obtain ⟨w, c⟩ := e
      have hc : 0 < c := hpos (w, c) (List.mem_cons_self _ _)
      have hrest : ∀ x ∈ rest, 0 < x.2 :=
        fun x hx => hpos x (List.mem_cons_of_mem _ hx)
      by_cases hw : elig w = true
      · obtain ⟨m2, y2, heq, h0, hle, hel, hach, hmin⟩ :=
          rrPick_go elig rest hrest c w hc hw
        refine Or.inr ⟨m2, y2, ?_, ?_, hel, ?_⟩
        · simpa [rrPick, hw, rrNext, Nat.lt_succ_self] using heq
        · rcases hach with ⟨rfl, rfl⟩ | hmem
          · exact List.mem_cons_self _ _
          · exact List.mem_cons_of_mem _ hmem
        · intro x hx hex
          rcases List.mem_cons.mp hx with rfl | hxr
          · simp only; omega
          · exact hmin x hxr hex
      · rcases ih hrest with ⟨hnone, hall⟩ | ⟨m2, y2, heq, hmem, hel, hmin⟩
        · refine Or.inl ⟨?_, ?_⟩
          · simpa [rrPick, hw] using hnone
          · intro x hx
            rcases List.mem_cons.mp hx with rfl | hxr
            · simpa using hw
            · exact hall x hxr
        · refine Or.inr ⟨m2, y2, ?_, List.mem_cons_of_mem _ hmem, hel, ?_⟩
          · simpa [rrPick, hw] using heq
          · intro x hx hex
            rcases List.mem_cons.mp hx with rfl | hxr
            · exact absurd hex (by simp [hw])
            · exact hmin x hxr hex

/-- The round-robin example of the claim: users A, B, C, counters 5, 3, 7,
one queued upload each, nobody privileged. -/
def stABC : St :=
  { transfers :=
      [("AfA", { username := "A", virtualPath := "fA" }),
       ("BfB", { username := "B", virtualPath := "fB" }),
       ("CfC", { username := "C", virtualPath := "fC" })],
    queuedKeys := [("A", "fA"), ("B", "fB"), ("C", "fC")],
    userUpdateCounters := [("A", 5), ("B", 3), ("C", 7)],
    userUpdateCounter := 7 }

/-- Claim C3: in a round-robin pass, whenever `_get_upload_candidate`
returns a candidate, its user has an update-counter entry whose counter is
minimal among the eligible entries (eligibility = the privilege
restriction), the user is privileged whenever any counter-holding user is
privileged, and the candidate is that user's first queued upload; counters
are positive in every reachable state since the global counter is
incremented before each assignment.  Activating an upload removes the
user's counter entry, so the user stops being a candidate until an upload
of theirs changes state again.  In the concrete example — queued users A
(counter 5), B (counter 3), C (counter 7), none privileged — the candidate
is B's upload. -/
theorem upload_round_robin_candidate (env : Env) (s : St) (u p : String)
    (hb : Bool) (hfifo : env.cfg.fifoqueue = false)
    (hpos : ∀ e ∈ s.userUpdateCounters, 0 < e.2)
    (hres : getUploadCandidate env s = (some (u, p), hb)) :
    (∃ c, (u, c) ∈ s.userUpdateCounters ∧
        ∀ e ∈ s.userUpdateCounters,
          (privCandidates env s = [] ∨ e.1 ∈ privCandidates env s) →
            c ≤ e.2) ∧
    ((∃ e ∈ s.userUpdateCounters, isPrivileged env s e.1 = true) →
        isPrivileged env s u = true) ∧
    (queuedPathsOf s u).head? = some p ∧
    (∀ (s2 : St) (u2 p2 : String) (tok : Nat),
        dictGet (uActivateTransfer s2 u2 p2 tok).userUpdateCounters u2 = none) ∧
    getUploadCandidate { cfg := { fifoqueue := false } } stABC =
      (some ("B", "fB"), false) := by
  have hstart := rrPick_start
    (fun w => decide (privCandidates env s = []) ||
      decide (w ∈ privCandidates env s)) s.userUpdateCounters hpos
  have hact : ∀ (s2 : St) (u2 p2 : String) (tok : Nat),
      dictGet (uActivateTransfer s2 u2 p2 tok).userUpdateCounters u2 = none := by
    intro s2 u2 p2 tok
    simp only [uActivateTransfer]
    exact dictGet_dictDel _ _
  have habc : getUploadCandidate { cfg := { fifoqueue := false } } stABC =
      (some ("B", "fB"), false) := by decide
  rcases hstart with ⟨hnone, _⟩ | ⟨m2, y2, heq, hmem, hel, hmin⟩
  · exfalso
    simp only [getUploadCandidate, hfifo, if_false, Bool.false_eq_true,
      ite_false] at hres
    rw [hnone] at hres
    simp at hres
  · have htar : u = y2 ∧ (queuedPathsOf s u).head? = some p := by
      simp only [getUploadCandidate, hfifo, Bool.false_eq_true, ite_false] at hres
      rw [heq] at hres
      simp only at hres
      cases hhead : (queuedPathsOf s y2).head? with
      | none => rw [hhead] at hres; simp at hres
      | some q =>
          rw [hhead] at hres
          simp only [Prod.mk.injEq, Option.some.injEq] at hres
          obtain ⟨⟨h1, h2⟩, _⟩ := hres
          subst h1; subst h2
          exact ⟨rfl, hhead⟩
    obtain ⟨rfl, hhead⟩ := htar
    refine ⟨⟨m2, hmem, ?_⟩, ?_, hhead, hact, habc⟩
    · intro e hmemE hcond
      refine hmin e hmemE ?_
      rcases hcond with hempty | hprivmem
      · simp [hempty]
      · simp [hprivmem]
    · intro ⟨e, hmemE, hprivE⟩
      have hne : privCandidates env s ≠ [] := by
        intro hemp
        have : e.1 ∈ privCandidates env s := by
          simp only [privCandidates, List.mem_filter, List.mem_map]
          exact ⟨⟨e, hmemE, rfl⟩, hprivE⟩
        rw [hemp] at this
        simp at this
      have : u ∈ privCandidates env s := by
        rcases Bool.or_eq_true_iff.mp hel with h1 | h2
        · exact absurd (of_decide_eq_true h1) hne
        · exact of_decide_eq_true h2
      simp only [privCandidates, List.mem_filter] at this
      exact this.2

/-- Witness for claim C3: in the A/B/C example the returned candidate B
satisfies the selection conditions. -/
theorem upload_round_robin_candidate_witness :
    (queuedPathsOf stABC "B").head? = some "fB" :=
  (upload_round_robin_candidate { cfg := { fifoqueue := false } } stABC
    "B" "fB" false rfl (by decide) (by decide)).2.2.1

/-! ### Claims C4 and C5: place-in-queue computation -/

/-- The FIFO loop of `_place_in_queue_request`: enumerate the global queued
list from position 1, counting non-privileged entries ahead when the
requester is privileged, stopping at the requested upload (0 when absent —
`queue_position` keeps its initial value). -/
def fifoPosLoop (isPrivQueue : Bool) (privUsers : List String)
    (target : String × String) :
    List (String × String) → Nat → Nat → Nat
  | [], _, _ => 0
  | e :: rest, position, numNonPriv =>
      let numNonPriv2 :=
        if isPrivQueue ∧ e.1 ∉ privUsers then numNonPriv + 1 else numNonPriv
      if e = target then position - numNonPriv2
      else fifoPosLoop isPrivQueue privUsers target rest (position + 1) numNonPriv2

/-- The round-robin loop of `_place_in_queue_request`: the 1-based position
of the requested upload among the requester's queued uploads. -/
def rrPosLoop (target : String) : List String → Nat → Option Nat
  | [], _ => none
  | q :: rest, position =>
      if q = target then some position
      else rrPosLoop target rest (position + 1)

/-- The queued users that are privileged
(`privileged_queued_users` in `_place_in_queue_request`). -/
def privQueuedUsers (env : Env) (s : St) : List String :=
  (queuedUserNames s).filter (fun w => isPrivileged env s w)

/-- `Uploads._place_in_queue_request` (peer code 51). -/
def placeInQueueRequest (env : Env) (s : St) (username vpath : String) : St :=
  if vpath ∉ queuedPathsOf s username then s
  else
    let isFifo := env.cfg.fifoqueue
    let isPrivQueue := isPrivileged env s username
    let privUsers := privQueuedUsers env s
    let queuePosition :=
      if isFifo then
        fifoPosLoop isPrivQueue privUsers (username, vpath) s.queuedKeys 1 0
      else
        match rrPosLoop vpath (queuedPathsOf s username) 1 with
        | none => 0
        | some pos =>
            if isPrivQueue then pos * privUsers.length
            else (privUsers.map (fun w => (queuedPathsOf s w).length)).sum
                 + pos * (queuedUserNames s).length
    let s1 :=
      if queuePosition > 0 then
        addPeer s username (.placeInQueueResponse vpath queuePosition)
      else s
    mutT s1 username vpath (fun t => { t with queuePosition := queuePosition })

/-- Three queued uploads from distinct non-privileged users in FIFO order. -/
def stFifo3 : St :=
  { transfers :=
      [("u1f1", { username := "u1", virtualPath := "f1" }),
       ("u2f2", { username := "u2", virtualPath := "f2" }),
       ("u3f3", { username := "u3", virtualPath := "f3" })],
    queuedKeys := [("u1", "f1"), ("u2", "f2"), ("u3", "f3")] }

/-- Claim C4: in FIFO mode with three queued uploads from distinct
non-privileged users enqueued in order u1, u2, u3, handling u2's
place-in-queue request computes position 2 and sends a
`PlaceInQueueResponse` carrying 2. -/
theorem fifo_place_in_queue_example :
    (getT (placeInQueueRequest { cfg := { fifoqueue := true } } stFifo3
        "u2" "f2") "u2" "f2").map (fun t => t.queuePosition) = some 2 ∧
    (placeInQueueRequest { cfg := { fifoqueue := true } } stFifo3
        "u2" "f2").peerMsgs =
      [("u2", PMsg.placeInQueueResponse "f2" 2)] := by decide

theorem rrPosLoop_eq (l : List String) (target : String) (n : Nat)
    (hmem : target ∈ l) :
    rrPosLoop target l n = some (n + l.indexOf target) := by
  induction l generalizing n with
  | nil => cases hmem
  | cons q rest ih =>
      by_cases h : q = target
      · subst h
        simp [rrPosLoop, List.indexOf_cons_self]
      · have hr : target ∈ rest := by
          rcases List.mem_cons.mp hmem with h2 | h2
          · exact absurd h2.symm h
          · exact h2
        rw [rrPosLoop, if_neg h, ih (n + 1) hr,
          List.indexOf_cons_ne rest h]
        congr 1
        omega

/-- Claim C5: in round-robin mode, a place-in-queue request for the
requester's `(k+1)`-st queued upload (`k` = index among that user's queued
entries) computes position `(k+1) * |privileged queued users|` for a
privileged requester, and `(total privileged queued uploads) + (k+1) *
|all queued users|` for a non-privileged requester — privileged uploads
are counted before non-privileged ones and the competing-user count is all
queued users, while a privileged requester competes only with privileged
users. -/
theorem round_robin_place_in_queue (env : Env) (s : St)
    (username vpath : String) (k : Nat) (t : Transfer)
    (hfifo : env.cfg.fifoqueue = false)
    (hmem : vpath ∈ queuedPathsOf s username)
    (hidx : (queuedPathsOf s username).indexOf vpath = k)
    (hT : getT s username vpath = some t) :
    getT (placeInQueueRequest env s username vpath) username vpath =
      some { t with queuePosition :=
        if isPrivileged env s username then
          (k + 1) * (privQueuedUsers env s).length
        else
          ((privQueuedUsers env s).map
            (fun w => (queuedPathsOf s w).length)).sum +
          (k + 1) * (queuedUserNames s).length } := by
  rw [placeInQueueRequest, if_neg (by simpa using hmem)]
  simp only [hfifo, Bool.false_eq_true, ite_false,
    rrPosLoop_eq (queuedPathsOf s username) vpath 1 hmem, hidx]
  rw [Nat.add_comm 1 k, getT_mutT,
    apply_ite (fun st2 => getT st2 username vpath), getT_addPeer, ite_self, hT]
  rfl

/-- Round-robin place-in-queue example: privileged user P with one queued
upload, non-privileged requester U with two. -/
def stRR : St :=
  { transfers :=
      [("Ppf", { username := "P", virtualPath := "pf" }),
       ("Ug1", { username := "U", virtualPath := "g1" }),
       ("Ug2", { username := "U", virtualPath := "g2" })],
    queuedKeys := [("P", "pf"), ("U", "g1"), ("U", "g2")],
    privilegedUsers := ["P"] }

/-- Witness for claim C5: non-privileged U asking for its second queued
upload with one privileged queued upload present and two queued users gets
position 1 + 2 * 2 = 5. -/
theorem round_robin_place_in_queue_witness :
    getT (placeInQueueRequest {} stRR "U" "g2") "U" "g2" =
      some { username := "U", virtualPath := "g2", queuePosition := 5 } := by
  have h := round_robin_place_in_queue {} stRR "U" "g2" 1
    { username := "U", virtualPath := "g2" } rfl (by decide) (by decide)
    (by decide)
  rw [h]
  decide

/-! ### Claim C6: download basename byte limit -/

/-- Modelled from the spec: `clean_file` from pynicotine/utils.py (not
under src/) sanitizes characters that are invalid in file names; the spec
does not constrain it further, so it is the identity here. -/
def cleanFile (s : String) : String := s

/-- `Downloads.get_basename_byte_limit`: per-folder maximum name byte
length, queried via `os.statvfs` (`255` on failure) and cached. -/
def getBasenameByteLimit (env : Env) (s : St) (folderPath : String) :
    St × Nat :=
  match dictGet s.folderLimits folderPath with
  | some m => (s, m)
  | none =>
      let m := (env.namemax folderPath).getD 255
      ({ s with folderLimits := dictPut s.folderLimits folderPath m }, m)

/-- The `while os.path.exists(...)` disambiguation loop of
`get_download_basename`, fuel-bounded (the filesystem is finite). -/
def avoidConflictLoop (env : Env) (folderPath stem ext : String) :
    Nat → Nat → String → String
  | 0, _, corrected => corrected
  | fuel + 1, counter, corrected =>
      if env.fsExists (pjoin folderPath corrected) then
        avoidConflictLoop env folderPath stem ext fuel (counter + 1)
          (stem ++ " (" ++ toString counter ++ ")" ++ ext)
      else corrected

/-- `Downloads.get_download_basename`. -/
def getDownloadBasename (env : Env) (s : St) (virtualPath folderPath : String)
    (avoidConflict : Bool) : St × String :=
  let r := getBasenameByteLimit env s folderPath
  let s1 := r.1
  let maxBytes := r.2
  let basename := cleanFile (lastPathComponent (replaceSlashes virtualPath))
  let se := splitext basename
  let basenameNoExtension := se.1
  let extension := se.2
  let basenameLimit : Int := (maxBytes : Int) - (utf8ByteLen extension : Int)
  let basenameNoExtension2 :=
    truncateStringByte basenameNoExtension (max 0 basenameLimit).toNat
  let extension2 :=
    if basenameLimit < 0 then truncateStringByte extension maxBytes
    else extension
  let corrected := basenameNoExtension2 ++ extension2
  if !avoidConflict then (s1, corrected)
  else (s1, avoidConflictLoop env folderPath basenameNoExtension2 extension2
    env.fuel 1 corrected)

/-- Claim C6 (amended): without conflict avoidance the returned basename
never exceeds the folder's cached byte limit, and the extension is kept
whenever its own encoding fits in the limit.  (With `avoid_conflict=true`
and an existing same-named file the ` (n)` suffix may push the name past
the limit — see the counterexample.) -/
theorem download_basename_byte_limit (env : Env) (s : St)
    (virtualPath folderPath : String) (maxBytes : Nat)
    (hcache : dictGet s.folderLimits folderPath = some maxBytes) :
    utf8ByteLen (getDownloadBasename env s virtualPath folderPath false).2
      ≤ maxBytes ∧
    (utf8ByteLen (splitext (cleanFile (lastPathComponent
        (replaceSlashes virtualPath)))).2 ≤ maxBytes →
      ∃ stem2, (getDownloadBasename env s virtualPath folderPath false).2 =
        stem2 ++ (splitext (cleanFile (lastPathComponent
          (replaceSlashes virtualPath)))).2) := by
  have hbl : getBasenameByteLimit env s folderPath = (s, maxBytes) := by
    unfold getBasenameByteLimit
    rw [hcache]
  simp only [getDownloadBasename, hbl, Bool.not_false, if_true, ite_true]
  set ext := (splitext (cleanFile (lastPathComponent
    (replaceSlashes virtualPath)))).2 with hext
  set stem := (splitext (cleanFile (lastPathComponent
    (replaceSlashes virtualPath)))).1 with hstem
  by_cases hlim : (maxBytes : Int) - (utf8ByteLen ext : Int) < 0
  · have hgt : maxBytes < utf8ByteLen ext := by omega
    constructor
    · rw [if_pos hlim, utf8ByteLen_append]
      have h1 : utf8ByteLen (truncateStringByte stem
          (max 0 ((maxBytes : Int) - (utf8ByteLen ext : Int))).toNat) ≤
          (max 0 ((maxBytes : Int) - (utf8ByteLen ext : Int))).toNat :=
        utf8ByteLen_truncate _ _
      have h2 : utf8ByteLen (truncateStringByte ext maxBytes) ≤ maxBytes :=
        utf8ByteLen_truncate _ _
      have h3 : (max 0 ((maxBytes : Int) - (utf8ByteLen ext : Int))).toNat = 0 := by
        omega
      omega
    · intro hfit
      omega
  · have hfit : utf8ByteLen ext ≤ maxBytes := by omega
    have htn : (max 0 ((maxBytes : Int) - (utf8ByteLen ext : Int))).toNat =
        maxBytes - utf8ByteLen ext := by omega
    constructor
    · rw [if_neg hlim, utf8ByteLen_append]
      have h1 : utf8ByteLen (truncateStringByte stem
          (max 0 ((maxBytes : Int) - (utf8ByteLen ext : Int))).toNat) ≤
          (max 0 ((maxBytes : Int) - (utf8ByteLen ext : Int))).toNat :=
        utf8ByteLen_truncate _ _
      omega
    · intro _
      rw [if_neg hlim]
      exact ⟨_, rfl⟩

/-- The environment of the C6 counterexample: `dl/abcde` already exists. -/
def envC6 : Env :=
  { fsExists := fun pth => decide (pth = "dl/abcde"), fuel := 10 }

/-- Claim C6 is false as stated for `avoid_conflict=true`: with the cached
limit 5 for folder `dl` and an existing file `dl/abcde`, downloading
virtual path `abcde` yields basename `abcde (1)` of 9 bytes, exceeding the
5-byte limit. -/
theorem download_basename_conflict_exceeds_limit :
    ¬ (utf8ByteLen (getDownloadBasename envC6
        { folderLimits := [("dl", 5)] } "abcde" "dl" true).2 ≤ 5) := by decide

/-- Witness for the amended claim C6: a 6-character name truncated to the
cached 5-byte limit. -/
theorem download_basename_byte_limit_witness :
    utf8ByteLen (getDownloadBasename {} { folderLimits := [("dl", 5)] }
      "abcdef" "dl" false).2 ≤ 5 :=
  (download_basename_byte_limit {} { folderLimits := [("dl", 5)] }
    "abcdef" "dl" 5 (by decide)).1

/-! ### Download enqueue / retry (claims C2, C7, C8) -/

/-- `Downloads.get_default_download_folder` (`os.path.normpath` is the
identity on the already-normalized configured paths of the model). -/
def getDefaultDownloadFolder (env : Env) (username : String) : String :=
  let folder := env.cfg.downloaddir
  if username ≠ "" ∧ env.cfg.usernamesubfolders then
    pjoin folder (cleanFile username)
  else folder

/-- The `while os.path.isfile(...)` scan of
`get_complete_download_file_path`, fuel-bounded. -/
def completeLoop (env : Env) (folderPath stemNE ext : String) (size : Nat) :
    Nat → Nat → String → Option String
  | fuel, counter, path =>
      if !env.fsIsFile path then none
      else if env.fsFileSize path = size then some path
      else
        match fuel with
        | 0 => none
        | fuel2 + 1 =>
            completeLoop env folderPath stemNE ext size fuel2 (counter + 1)
              (pjoin folderPath
                (stemNE ++ " (" ++ toString counter ++ ")" ++ ext))

/-- `Downloads.get_complete_download_file_path`. -/
def getCompleteDownloadFilePath (env : Env) (s : St)
    (username virtualPath : String) (size : Nat)
    (downloadFolderPath : String) : St × Option String :=
  let folder :=
    if downloadFolderPath = "" then getDefaultDownloadFolder env username
    else downloadFolderPath
  let r := getDownloadBasename env s virtualPath folder false
  let se := splitext r.2
  (r.1, completeLoop env folder se.1 se.2 size env.fuel 1
    (pjoin folder r.2))

/-- `Downloads._clear_transfer`: abort without a status, then remove the
transfer from the registry. -/
def dClearTransfer (s : St) (u p : String) : St :=
  let s1 := dAbortTransfer s u p none
  addEvent { s1 with transfers := dictDel s1.transfers (u ++ p) }
    (.clearDownload u p)

/-- `Downloads._auto_clear_transfer`. -/
def dAutoClearTransfer (env : Env) (s : St) (u p : String) : Bool × St :=
  if env.cfg.autoclearDownloads then (true, dClearTransfer s u p)
  else (false, s)

/-- `Downloads._enqueue_transfer`: filter evaluation, offline check,
already-downloaded check, then the base enqueue and the `QueueUpload`
message (deferred while shares are initializing). -/
def dEnqueueTransfer (env : Env) (s : St) (u p : String)
    (bypassFilter : Bool) : St :=
  match getT s u p with
  | none => s
  | some t0 =>
    if !bypassFilter ∧ env.cfg.enablefilters ∧ env.cfg.filterValid ∧
        env.filterMatches p then
      let r := dAutoClearTransfer env s u p
      if r.1 then r.2 else dAbortTransfer r.2 u p (some .filtered)
    else if env.selfStatus = .offline ∨ env.userStatus u = some .offline then
      dAbortTransfer s u p (some .userLoggedOff)
    else
      let rc := getCompleteDownloadFilePath env s u p t0.size t0.folderPath
      match rc.2 with
      | some _ =>
          mutT rc.1 u p (fun t =>
            { t with status := .finished, currentByteOffset := some t0.size })
      | none =>
          let s2 := baseEnqueue rc.1 u p
          if !env.sharesInitialized then
            { s2 with pendingQueueKeys := s2.pendingQueueKeys ++ [(u, p)] }
          else addPeer s2 u (.queueUpload p t0.legacyAttempt)

/-- `Downloads.retry_download`. -/
def retryDownload (env : Env) (s : St) (u p : String)
    (bypassFilter : Bool) : St :=
  match getT s u p with
  | none => s
  | some t0 =>
      if isActive s u p || decide (t0.status = .finished) then s
      else
        let s1 := dDequeueTransfer s u p
        let s2 := baseUnfail s1 u p
        let s3 := dEnqueueTransfer env s2 u p bypassFilter
        dUpdateTransfer s3 u p

section EnqueueLemmas

variable (env : Env) (s : St) (u p : String)

@[simp] theorem transfers_fst_getBasenameByteLimit (f : String) :
    ((getBasenameByteLimit env s f).1).transfers = s.transfers := by
  unfold getBasenameByteLimit; split <;> rfl

@[simp] theorem queuedKeys_fst_getBasenameByteLimit (f : String) :
    ((getBasenameByteLimit env s f).1).queuedKeys = s.queuedKeys := by
  unfold getBasenameByteLimit; split <;> rfl

@[simp] theorem activeKeys_fst_getBasenameByteLimit (f : String) :
    ((getBasenameByteLimit env s f).1).activeKeys = s.activeKeys := by
  unfold getBasenameByteLimit; split <;> rfl

@[simp] theorem failedKeys_fst_getBasenameByteLimit (f : String) :
    ((getBasenameByteLimit env s f).1).failedKeys = s.failedKeys := by
  unfold getBasenameByteLimit; split <;> rfl

@[simp] theorem events_fst_getBasenameByteLimit (f : String) :
    ((getBasenameByteLimit env s f).1).events = s.events := by
  unfold getBasenameByteLimit; split <;> rfl

@[simp] theorem fst_getDownloadBasename (vp f : String) (ac : Bool) :
    (getDownloadBasename env s vp f ac).1 = (getBasenameByteLimit env s f).1 := by
  simp only [getDownloadBasename]
  split <;> rfl

theorem transfers_fst_getComplete (size : Nat) (f : String) :
    ((getCompleteDownloadFilePath env s u p size f).1).transfers =
      s.transfers := by
  simp only [getCompleteDownloadFilePath, fst_getDownloadBasename,
    transfers_fst_getBasenameByteLimit]

theorem queuedKeys_fst_getComplete (size : Nat) (f : String) :
    ((getCompleteDownloadFilePath env s u p size f).1).queuedKeys =
      s.queuedKeys := by
  simp only [getCompleteDownloadFilePath, fst_getDownloadBasename,
    queuedKeys_fst_getBasenameByteLimit]

theorem getT_fst_getComplete (size : Nat) (f : String) :
    getT (getCompleteDownloadFilePath env s u p size f).1 u p = getT s u p := by
  simp only [getT, transfers_fst_getComplete]

@[simp] theorem getT_baseEnqueue :
    getT (baseEnqueue s u p) u p =
      (getT s u p).map (fun t => { t with status := TStatus.queued }) := by
  simp [baseEnqueue, getT, mutT, dictGet_mut]

@[simp] theorem queuedKeys_baseEnqueue :
    (baseEnqueue s u p).queuedKeys = setAdd s.queuedKeys (u, p) := rfl

theorem completeLoop_none (folderPath stemNE ext : String) (size : Nat)
    (fuel counter : Nat) (path : String) (h : env.fsIsFile path = false) :
    completeLoop env folderPath stemNE ext size fuel counter path = none := by
  cases fuel <;> (rw [completeLoop]; simp [h])

theorem getT_dAbortTransfer_some (t0 : Transfer) (st : TStatus)
    (h : getT s u p = some t0) :
    getT (dAbortTransfer s u p (some st)) u p =
      some { t0 with legacyAttempt := false, sizeChanged := false,
                     sock := false, fileHandle := none, status := st } := by
  have hd := getT_dAbortPre s u p t0 h
  simp only [dAbortTransfer, h]
  split <;> simp [hd]

theorem isActive_dAbortTransfer (t0 : Transfer) (st : TStatus)
    (h : getT s u p = some t0) :
    isActive (dAbortTransfer s u p (some st)) u p = false := by
  have hpre := isActive_dAbortPre s u p t0
  simp only [dAbortTransfer, h]
  split <;> simpa [isActive] using hpre

/-- Core of the retry path: under a benign environment (filters disabled,
both sides online, no already-complete file on disk) `_enqueue_transfer`
reaches the base enqueue, so the transfer ends queued with status
`QUEUED`; the active partition is untouched. -/
theorem dEnqueueTransfer_queues (t0 : Transfer)
    (hT : getT s u p = some t0)
    (hnofilter : env.cfg.enablefilters = false)
    (hself : env.selfStatus ≠ .offline)
    (hpeer : env.userStatus u ≠ some .offline)
    (hnofile : ∀ pth, env.fsIsFile pth = false) :
    getT (dEnqueueTransfer env s u p false) u p =
      some { t0 with status := TStatus.queued } ∧
    (u, p) ∈ (dEnqueueTransfer env s u p false).queuedKeys ∧
    (dEnqueueTransfer env s u p false).activeKeys = s.activeKeys := by
  have hc2 : (getCompleteDownloadFilePath env s u p t0.size t0.folderPath).2 =
      none := by
    simp only [getCompleteDownloadFilePath]
    exact completeLoop_none env _ _ _ _ _ _ _ (hnofile _)
  have hgetT : getT (getCompleteDownloadFilePath env s u p t0.size
      t0.folderPath).1 u p = some t0 := by
    rw [getT_fst_getComplete]; exact hT
  simp only [dEnqueueTransfer, hT]
  rw [if_neg (by simp [hnofilter]), if_neg (by
    intro hcon
    rcases hcon with h1 | h2
    · exact hself h1
    · exact hpeer h2)]
  simp only [hc2]
  refine ⟨?_, ?_, ?_⟩
  · split <;>
      (simp [getT, dictGet_mut, hT, addPeer, baseEnqueue, mutT,
        transfers_fst_getComplete]
       try exact ⟨t0, hT, by simp⟩)
  · split <;>
      simp [queuedKeys_fst_getComplete, mem_setAdd_self, addPeer,
        baseEnqueue, mutT]
  · split <;>
      simp [activeKeys_fst_getBasenameByteLimit, addPeer, baseEnqueue, mutT,
        getCompleteDownloadFilePath, fst_getDownloadBasename]

end EnqueueLemmas

/-- Claim C2 (amended): aborting a transfer whose (new) status is not
`FINISHED` and immediately retrying it leaves it queued with status
`QUEUED`, provided the retry actually re-enqueues: download filters
disabled, both our own session and the peer online, and no complete copy
of the file already on disk.  (Otherwise `_enqueue_transfer` aborts the
transfer again — see the counterexample with an offline peer.) -/
theorem abort_then_retry_requeues (env : Env) (s : St) (u p : String)
    (t0 : Transfer) (st0 : TStatus)
    (hT : getT s u p = some t0)
    (hst : st0 ≠ TStatus.finished)
    (hnofilter : env.cfg.enablefilters = false)
    (hself : env.selfStatus ≠ .offline)
    (hpeer : env.userStatus u ≠ some .offline)
    (hnofile : ∀ pth, env.fsIsFile pth = false) :
    (getT (retryDownload env (dAbortTransfer s u p (some st0)) u p false)
        u p).map (fun t => t.status) = some TStatus.queued ∧
    (u, p) ∈ (retryDownload env (dAbortTransfer s u p (some st0)) u p
        false).queuedKeys := by
  have h1 := getT_dAbortTransfer_some s u p t0 st0 hT
  have hact := isActive_dAbortTransfer s u p t0 st0 hT
  set s1 := dAbortTransfer s u p (some st0) with hs1
  have h3 : getT (baseUnfail (dDequeueTransfer s1 u p) u p) u p =
      some { t0 with legacyAttempt := false, sizeChanged := false,
                     sock := false, fileHandle := none, status := st0 } := by
    simp [h1]
  have henq := dEnqueueTransfer_queues env
    (baseUnfail (dDequeueTransfer s1 u p) u p) u p _ h3 hnofilter hself
    hpeer hnofile
  simp only [retryDownload, h1, hact, Bool.false_or, decide_eq_true_eq]
  rw [if_neg (by simp [hst])]
  refine ⟨?_, ?_⟩
  · simp only [dUpdateTransfer, getT_addEvent]
    rw [henq.1]
    simp
  · simp only [dUpdateTransfer, queuedKeys_addEvent]
    exact henq.2.1

/-- An environment in which the peer `u` is offline. -/
def envOffline : Env :=
  { userStatus := fun w => if w = "u" then some .offline else some .online }

/-- A paused download of user `u`, not in any partition. -/
def stC2 : St :=
  { transfers := [("uf", { username := "u", virtualPath := "f",
                           status := .paused, folderPath := "dl" })] }

/-- Claim C2 is false as stated: aborting and immediately retrying the
non-active, non-finished download of the offline user `u` ends with status
`USER_LOGGED_OFF` — not `QUEUED` — and outside the queued partition,
because `_enqueue_transfer` aborts transfers whose peer is offline. -/
theorem abort_retry_offline_stays_unqueued :
    (getT (retryDownload envOffline
        (dAbortTransfer stC2 "u" "f" (some TStatus.paused)) "u" "f" false)
      "u" "f").map (fun t => t.status) = some TStatus.userLoggedOff ∧
    ("u", "f") ∉ (retryDownload envOffline
        (dAbortTransfer stC2 "u" "f" (some TStatus.paused)) "u" "f"
        false).queuedKeys := by decide

/-- Witness for the amended claim C2: with both sides online, no filters
and no complete copy on disk, abort-then-retry re-queues the transfer. -/
theorem abort_then_retry_requeues_witness :
    (getT (retryDownload {} (dAbortTransfer stC2 "u" "f"
        (some TStatus.paused)) "u" "f" false) "u" "f").map
      (fun t => t.status) = some TStatus.queued :=
  (abort_then_retry_requeues {} stC2 "u" "f"
    { username := "u", virtualPath := "f", status := .paused,
      folderPath := "dl" }
    TStatus.paused (by decide) (by decide) rfl (by decide) (by decide)
    (fun _ => rfl)).1

/-! ### Claim C8: legacy-encoding fallback -/

/-- `reason.startswith("User limit of")` on a peer-supplied reason. -/
def reasonStartsUserLimit : TStatus → Bool
  | .other str => str.startsWith "User limit of"
  | _ => false

/-- `Downloads._upload_denied` (peer code 50). -/
def uploadDenied (env : Env) (s : St) (username vpath : String)
    (reason : TStatus) : St :=
  if vpath ∉ queuedPathsOf s username then s
  else
    match getT s username vpath with
    | none => s
    | some t0 =>
      let reason2 :=
        if isTransferStatusValue reason then TStatus.cancelled else reason
      if reason2 = .fileNotShared ∧ t0.legacyAttempt = false then
        let s1 := dDequeueTransfer s username vpath
        let s2 := mutT s1 username vpath
          (fun t => { t with legacyAttempt := true })
        let s3 := dEnqueueTransfer env s2 username vpath false
        dUpdateTransfer s3 username vpath
      else
        let hitLimits := reason2 = .tooManyFiles ∨ reason2 = .tooManyMegabytes ∨
          reasonStartsUserLimit reason2
        let reason3 := if hitLimits then TStatus.queued else reason2
        let s1 :=
          if hitLimits then
            let newLimit := max 5 ((queuedPathsOf s username).length - 1)
            { s with userQueueLimits := dictPut s.userQueueLimits username newLimit }
          else s
        let s2 := dAbortTransfer s1 username vpath (some reason3)
        dUpdateTransfer s2 username vpath

/-- `Downloads._upload_failed` (peer code 46). -/
def uploadFailed (env : Env) (s : St) (username vpath : String) : St :=
  match getT s username vpath with
  | none => s
  | some t0 =>
      let tokenActive :=
        match t0.token with
        | none => false
        | some tok => s.activeKeys.any
            (fun e => decide (e.1 = username) && decide (e.2.1 = tok))
      if !tokenActive then s
      else if t0.legacyAttempt = false then
        let s1 := dDequeueTransfer s username vpath
        let s2 := mutT s1 username vpath
          (fun t => { t with legacyAttempt := true })
        let s3 := dEnqueueTransfer env s2 username vpath false
        dUpdateTransfer s3 username vpath
      else
        dAbortTransfer s username vpath (some .connectionClosed)

theorem mem_queuedPathsOf (s : St) (u p : String) :
    p ∈ queuedPathsOf s u ↔ (u, p) ∈ s.queuedKeys := by
  simp only [queuedPathsOf, List.mem_map, List.mem_filter,
    decide_eq_true_eq]
  constructor
  · rintro ⟨e, ⟨he, hu⟩, hp⟩
    obtain ⟨e1, e2⟩ := e
    simp only at hu hp
    subst hu; subst hp
    exact he
  · intro h
    exact ⟨(u, p), ⟨h, rfl⟩, rfl⟩

/-- The shared retry chain of `_upload_denied`/`_upload_failed`: dequeue,
set `legacy_attempt`, re-enqueue, update. -/
theorem legacyRetryChain (env : Env) (s : St) (u p : String) (t0 : Transfer)
    (hT : getT s u p = some t0)
    (hnofilter : env.cfg.enablefilters = false)
    (hself : env.selfStatus ≠ .offline)
    (hpeer : env.userStatus u ≠ some .offline)
    (hnofile : ∀ pth, env.fsIsFile pth = false) :
    getT (dUpdateTransfer (dEnqueueTransfer env
        (mutT (dDequeueTransfer s u p) u p
          (fun t => { t with legacyAttempt := true })) u p false) u p) u p =
      some { t0 with legacyAttempt := true, status := .queued } ∧
    (u, p) ∈ (dUpdateTransfer (dEnqueueTransfer env
        (mutT (dDequeueTransfer s u p) u p
          (fun t => { t with legacyAttempt := true })) u p false) u p).queuedKeys ∧
    (dUpdateTransfer (dEnqueueTransfer env
        (mutT (dDequeueTransfer s u p) u p
          (fun t => { t with legacyAttempt := true })) u p false) u p).activeKeys =
      s.activeKeys := by
  have hmid : getT (mutT (dDequeueTransfer s u p) u p
      (fun t => { t with legacyAttempt := true })) u p =
      some { t0 with legacyAttempt := true } := by
    simp [hT]
  have henq := dEnqueueTransfer_queues env
    (mutT (dDequeueTransfer s u p) u p
      (fun t => { t with legacyAttempt := true })) u p _ hmid hnofilter
    hself hpeer hnofile
  refine ⟨?_, ?_, ?_⟩
  · simp only [dUpdateTransfer, getT_addEvent]
    rw [henq.1]
  · simp only [dUpdateTransfer, queuedKeys_addEvent]
    exact henq.2.1
  · simp only [dUpdateTransfer, activeKeys_addEvent]
    rw [henq.2.2]
    simp

theorem failedKeys_dAbortTransfer_mem (s : St) (u p : String) (t0 : Transfer)
    (st : TStatus) (h : getT s u p = some t0)
    (hst : st ∉ [TStatus.finished, TStatus.filtered, TStatus.paused]) :
    (u, p) ∈ (dAbortTransfer s u p (some st)).failedKeys := by
  simp only [dAbortTransfer, h, failedKeys_addEvent]
  rw [if_pos hst]
  simp only [failedKeys_baseFail, failedKeys_mutT]
  exact mem_setAdd_self _ _

theorem queuedKeys_dAbortTransfer_not_mem (s : St) (u p : String)
    (t0 : Transfer) (st : TStatus) (h : getT s u p = some t0) :
    (u, p) ∉ (dAbortTransfer s u p (some st)).queuedKeys := by
  simp only [dAbortTransfer, h]
  split <;> simpa using queuedKeys_dAbortPre _ u p t0

/-- Claim C8: a `FILE_NOT_SHARED` denial of a queued download — or an
upload-failed report on an active attempt — triggers exactly one retry
with the legacy filename encoding: the first response dequeues the
transfer, sets `legacy_attempt`, and re-enqueues it; a second response for
the same transfer does not retry again but aborts it permanently with a
failure status (`FILE_NOT_SHARED` resp. `CONNECTION_CLOSED`), landing it
in the failed partition.  (Benign environment: filters off, both sides
online, no complete copy on disk — so the re-enqueue queues.) -/
theorem legacy_fallback_single_retry (env : Env) (s : St) (u p : String)
    (t0 : Transfer) (tok : Nat)
    (hT : getT s u p = some t0)
    (hlegacy : t0.legacyAttempt = false)
    (hnofilter : env.cfg.enablefilters = false)
    (hself : env.selfStatus ≠ .offline)
    (hpeer : env.userStatus u ≠ some .offline)
    (hnofile : ∀ pth, env.fsIsFile pth = false) :
    ((u, p) ∈ s.queuedKeys →
      (getT (uploadDenied env s u p .fileNotShared) u p =
          some { t0 with legacyAttempt := true, status := .queued } ∧
        (u, p) ∈ (uploadDenied env s u p .fileNotShared).queuedKeys ∧
        (getT (uploadDenied env (uploadDenied env s u p .fileNotShared) u p
            .fileNotShared) u p).map (fun t => t.status) =
          some TStatus.fileNotShared ∧
        (u, p) ∈ (uploadDenied env (uploadDenied env s u p .fileNotShared)
            u p .fileNotShared).failedKeys ∧
        (u, p) ∉ (uploadDenied env (uploadDenied env s u p .fileNotShared)
            u p .fileNotShared).queuedKeys)) ∧
    (t0.token = some tok → (u, tok, p) ∈ s.activeKeys →
      (getT (uploadFailed env s u p) u p =
          some { t0 with legacyAttempt := true, status := .queued } ∧
        (u, p) ∈ (uploadFailed env s u p).queuedKeys ∧
        (getT (uploadFailed env (uploadFailed env s u p) u p) u p).map
            (fun t => t.status) = some TStatus.connectionClosed ∧
        (u, p) ∈ (uploadFailed env (uploadFailed env s u p) u p).failedKeys ∧
        (u, p) ∉ (uploadFailed env (uploadFailed env s u p) u p).queuedKeys)) := by
  have hchain := legacyRetryChain env s u p t0 hT hnofilter hself hpeer hnofile
  constructor
  · intro hq
    have hqp : p ∈ queuedPathsOf s u := (mem_queuedPathsOf s u p).mpr hq
    have hr1 : uploadDenied env s u p .fileNotShared =
        dUpdateTransfer (dEnqueueTransfer env
          (mutT (dDequeueTransfer s u p) u p
            (fun t => { t with legacyAttempt := true })) u p false) u p := by
      simp only [uploadDenied, hT]
      rw [if_neg (not_not_intro hqp)]
      simp [hlegacy, isTransferStatusValue]
    rw [hr1]
    refine ⟨hchain.1, hchain.2.1, ?_, ?_, ?_⟩ <;>
      (set X := dUpdateTransfer (dEnqueueTransfer env
        (mutT (dDequeueTransfer s u p) u p
          (fun t => { t with legacyAttempt := true })) u p false) u p with hX
       have hT2 := hchain.1
       have hq2 : p ∈ queuedPathsOf X u := (mem_queuedPathsOf X u p).mpr hchain.2.1
       have hr2 : uploadDenied env X u p .fileNotShared =
          dUpdateTransfer (dAbortTransfer X u p (some .fileNotShared)) u p := by
         simp only [uploadDenied, hT2]
         rw [if_neg (not_not_intro hq2)]
         simp [isTransferStatusValue, reasonStartsUserLimit]
       rw [hr2])
    · simp only [dUpdateTransfer, getT_addEvent]
      rw [getT_dAbortTransfer_some X u p _ _ hchain.1]
      rfl
    · simp only [dUpdateTransfer, failedKeys_addEvent]
      exact failedKeys_dAbortTransfer_mem X u p _ _ hchain.1 (by decide)
    · simp only [dUpdateTransfer, queuedKeys_addEvent]
      exact queuedKeys_dAbortTransfer_not_mem X u p _ _ hchain.1
  · intro htok hactive
    have hTokActive : s.activeKeys.any
        (fun e => decide (e.1 = u) && decide (e.2.1 = tok)) = true :=
      List.any_eq_true.mpr ⟨(u, tok, p), hactive, by simp⟩
    have hr1 : uploadFailed env s u p =
        dUpdateTransfer (dEnqueueTransfer env
          (mutT (dDequeueTransfer s u p) u p
            (fun t => { t with legacyAttempt := true })) u p false) u p := by
      simp only [uploadFailed, hT, htok, hTokActive]
      simp [hlegacy]
    rw [hr1]
    set X := dUpdateTransfer (dEnqueueTransfer env
      (mutT (dDequeueTransfer s u p) u p
        (fun t => { t with legacyAttempt := true })) u p false) u p with hX
    have hT2 := hchain.1
    have hactive2 : (u, tok, p) ∈ X.activeKeys := by
      rw [hchain.2.2]; exact hactive
    have hTokActive2 : X.activeKeys.any
        (fun e => decide (e.1 = u) && decide (e.2.1 = tok)) = true :=
      List.any_eq_true.mpr ⟨(u, tok, p), hactive2, by simp⟩
    have hr2 : uploadFailed env X u p =
        dAbortTransfer X u p (some .connectionClosed) := by
      simp only [uploadFailed, hT2, htok, hTokActive2]
      simp
    refine ⟨hchain.1, hchain.2.1, ?_, ?_, ?_⟩ <;> rw [hr2]
    · rw [getT_dAbortTransfer_some X u p _ _ hchain.1]
      rfl
    · exact failedKeys_dAbortTransfer_mem X u p _ _ hchain.1 (by decide)
    · exact queuedKeys_dAbortTransfer_not_mem X u p _ _ hchain.1

/-- A queued download of user `u`, first attempt. -/
def stC8 : St :=
  { transfers := [("uf", { username := "u", virtualPath := "f",
                           folderPath := "dl" })],
    queuedKeys := [("u", "f")] }

/-- Witness for claim C8: the first `FILE_NOT_SHARED` denial re-enqueues
with the legacy flag set. -/
theorem legacy_fallback_single_retry_witness :
    getT (uploadDenied {} stC8 "u" "f" .fileNotShared) "u" "f" =
      some { username := "u", virtualPath := "f", folderPath := "dl",
             legacyAttempt := true, status := .queued } :=
  ((legacy_fallback_single_retry {} stC8 "u" "f"
    { username := "u", virtualPath := "f", folderPath := "dl" } 0
    (by decide) rfl rfl (by decide) (by decide) (fun _ => rfl)).1
    (by decide)).1

/-! ### Claim C9: completion handling -/

/-- `Downloads._file_downloaded_actions` (the optional shell command is an
external effect outside the model). -/
def fileDownloadedActions (env : Env) (s : St) : St :=
  if env.cfg.notificationPopupFile then
    addNotification s "File Downloaded" false
  else s

/-- The virtual paths of a user's active transfers. -/
def activePathsOf (s : St) (u : String) : List String :=
  (s.activeKeys.filter (fun e => decide (e.1 = u))).map (fun e => e.2.2)

/-- The virtual paths of a user's failed transfers. -/
def failedPathsOf (s : St) (u : String) : List String :=
  (s.failedKeys.filter (fun e => decide (e.1 = u))).map (fun e => e.2)

/-- `Downloads._folder_downloaded_actions`. -/
def folderDownloadedActions (env : Env) (s : St)
    (username folderPath : String) : St :=
  if folderPath = "" then s
  else if (queuedPathsOf s username ++ activePathsOf s username ++
      failedPathsOf s username).any (fun q =>
        ((getT s username q).map (fun t => t.folderPath)).getD "" = folderPath) then
    s
  else if env.cfg.notificationPopupFolder then
    addNotification s "Folder Downloaded" false
  else s

/-- `Downloads._finish_transfer`: move the completed temp file into the
destination (creating it if needed); on an `OSError` abort with
`DOWNLOAD_FOLDER_ERROR` and show a high-priority notification; otherwise
mark `FINISHED` and run the post-download actions. -/
def dFinishTransfer (env : Env) (s : St) (u p : String) : St :=
  match getT s u p with
  | none => s
  | some t0 =>
    let downloadFolderPath :=
      if t0.folderPath ≠ "" then t0.folderPath
      else getDefaultDownloadFolder env u
    let rb := getDownloadBasename env s p downloadFolderPath true
    let downloadFilePath := pjoin downloadFolderPath rb.2
    let incomplete := (t0.fileHandle).getD ""
    let s2 := baseDeactivate rb.1 u p
    let s3 := closeFile s2 u p
    if env.osMoveError incomplete downloadFilePath then
      addNotification (dAbortTransfer s3 u p (some .downloadFolderError))
        "Download Folder Error" true
    else
      let s4 :=
        if !(env.fsIsDir downloadFolderPath) then
          addFsOp s3 (.makedirs downloadFolderPath)
        else s3
      let s5 := addFsOp s4 (.move incomplete downloadFilePath)
      let s6 := mutT s5 u p (fun t =>
        { t with status := .finished, currentByteOffset := some t.size,
                 sock := false })
      let s7 := fileDownloadedActions env s6
      let s8 := folderDownloadedActions env s7 u t0.folderPath
      let s9 := addEvent s8 .downloadNotification
      let r := dAutoClearTransfer env s9 u p
      if r.1 then r.2 else dUpdateTransfer r.2 u p

section FinishLemmas

variable (s : St) (u p : String)

@[simp] theorem fsOps_mutT (f : Transfer → Transfer) :
    (mutT s u p f).fsOps = s.fsOps := rfl

@[simp] theorem fsOps_addNet (m : NMsg) : (addNet s m).fsOps = s.fsOps := rfl

@[simp] theorem fsOps_addEvent (e : Ev) : (addEvent s e).fsOps = s.fsOps := rfl

@[simp] theorem fsOps_addPeer (w : String) (m : PMsg) :
    (addPeer s w m).fsOps = s.fsOps := rfl

@[simp] theorem fsOps_addNotification (ti : String) (hi : Bool) :
    (addNotification s ti hi).fsOps = s.fsOps := rfl

@[simp] theorem fsOps_baseUnfail : (baseUnfail s u p).fsOps = s.fsOps := rfl

@[simp] theorem fsOps_baseFail : (baseFail s u p).fsOps = s.fsOps := rfl

@[simp] theorem fsOps_baseDeactivate :
    (baseDeactivate s u p).fsOps = s.fsOps := rfl

@[simp] theorem fsOps_baseDequeue : (baseDequeue s u p).fsOps = s.fsOps := by
  unfold baseDequeue; split <;> rfl

@[simp] theorem fsOps_dDequeue :
    (dDequeueTransfer s u p).fsOps = s.fsOps := by
  simp [dDequeueTransfer]

@[simp] theorem fsOps_fst_getBasenameByteLimit (env : Env) (f : String) :
    ((getBasenameByteLimit env s f).1).fsOps = s.fsOps := by
  unfold getBasenameByteLimit; split <;> rfl

@[simp] theorem getT_addNotification (ti : String) (hi : Bool) :
    getT (addNotification s ti hi) u p = getT s u p := rfl

@[simp] theorem failedKeys_addNotification (ti : String) (hi : Bool) :
    (addNotification s ti hi).failedKeys = s.failedKeys := rfl

theorem fsOps_dAbortPre (t0 : Transfer) :
    (dAbortPre s u p t0).fsOps = s.fsOps := by
  simp [dAbortPre, closeFile, apply_ite St.fsOps]

theorem fsOps_dAbortTransfer_some (st : TStatus) :
    (dAbortTransfer s u p (some st)).fsOps = s.fsOps := by
  rcases hg : getT s u p with _ | t0
  · simp [dAbortTransfer, hg]
  · simp only [dAbortTransfer, hg]
    split <;> simp [fsOps_dAbortPre]

end FinishLemmas

/-- Claim C9: when the move of the completed temp file into the
destination folder fails with an OS error, the download ends with status
`DOWNLOAD_FOLDER_ERROR` (never `FINISHED`) in the failed partition, a
high-priority Download Folder Error notification is shown, and the finish
operation performs no filesystem deletion (no fs operation at all on this
path, in particular the incomplete temp file is kept). -/
theorem finish_move_failure_spec (env : Env) (s : St) (u p : String)
    (t0 : Transfer) (inc : String)
    (hT : getT s u p = some t0)
    (hfh : t0.fileHandle = some inc)
    (hfp : t0.folderPath ≠ "")
    (hmove : env.osMoveError inc
      (pjoin t0.folderPath
        (getDownloadBasename env s p t0.folderPath true).2) = true) :
    (getT (dFinishTransfer env s u p) u p).map (fun t => t.status) =
      some TStatus.downloadFolderError ∧
    (getT (dFinishTransfer env s u p) u p).map (fun t => t.status) ≠
      some TStatus.finished ∧
    (u, p) ∈ (dFinishTransfer env s u p).failedKeys ∧
    ("Download Folder Error", true) ∈ (dFinishTransfer env s u p).notifications ∧
    (dFinishTransfer env s u p).fsOps = s.fsOps := by
  have hT3 : getT (closeFile (baseDeactivate
      (getDownloadBasename env s p t0.folderPath true).1 u p) u p) u p =
      some { t0 with fileHandle := none } := by
    have h0 : getT (getDownloadBasename env s p t0.folderPath true).1 u p =
        some t0 := by
      rw [fst_getDownloadBasename]
      show dictGet ((getBasenameByteLimit env s t0.folderPath).1).transfers
        (u ++ p) = some t0
      rw [transfers_fst_getBasenameByteLimit]
      exact hT
    simp only [closeFile, getT_mutT, getT_baseDeactivate, h0, Option.map_some]
    rfl
  have hred : dFinishTransfer env s u p =
      addNotification (dAbortTransfer (closeFile (baseDeactivate
        (getDownloadBasename env s p t0.folderPath true).1 u p) u p) u p
        (some .downloadFolderError)) "Download Folder Error" true := by
    simp only [dFinishTransfer, hT, hfp, if_true, ite_true, hfh]
    rw [if_pos hfp]
    simp only [Option.getD_some]
    rw [if_pos hmove]
  rw [hred]
  set s3 := closeFile (baseDeactivate
    (getDownloadBasename env s p t0.folderPath true).1 u p) u p with hs3
  refine ⟨?_, ?_, ?_, ?_, ?_⟩
  · rw [getT_addNotification, getT_dAbortTransfer_some s3 u p _ _ hT3]
    rfl
  · rw [getT_addNotification, getT_dAbortTransfer_some s3 u p _ _ hT3]
    simp
  · rw [failedKeys_addNotification]
    exact failedKeys_dAbortTransfer_mem s3 u p _ _ hT3 (by decide)
  · simp [addNotification]
  · rw [fsOps_addNotification, fsOps_dAbortTransfer_some]
    simp [hs3, closeFile]

/-- The environment of the C9 witness: every move attempt raises. -/
def envC9 : Env := { osMoveError := fun _ _ => true }

/-- The state of the C9 witness: one transfer with an open temp file. -/
def stC9 : St :=
  { transfers := [("uf", { username := "u", virtualPath := "f",
                           folderPath := "dl",
                           fileHandle := some "incx" })],
    folderLimits := [("dl", 255)] }

/-- Witness for claim C9: a concrete failing move. -/
theorem finish_move_failure_witness :
    (getT (dFinishTransfer envC9 stC9 "u" "f") "u" "f").map
      (fun t => t.status) = some TStatus.downloadFolderError :=
  (finish_move_failure_spec envC9 stC9 "u" "f"
    { username := "u", virtualPath := "f", folderPath := "dl",
      fileHandle := some "incx" } "incx"
    (by decide) rfl (by decide) rfl).1

/-! ### Claim C7: folder-contents responses -/

/-- One entry of a peer's folder listing (`(code, basename, file_size,
ext, file_attributes, *unused)`). -/
structure FileInfo where
  code : Nat := 1
  name : String
  size : Nat := 0
  ext : String := ""
  deriving DecidableEq, Repr

/-- The `FolderContentsResponse` message (peer code 37): sender and the
`msg.list` dict mapping folder paths to file listings. -/
structure FolderContentsMsg where
  username : String
  contents : List (String × List FileInfo)
  deriving Repr

/-- Modelled from the spec: `clean_path` from pynicotine/utils.py (not
under src/) sanitizes a local path; the spec does not constrain it, so it
is the identity here. -/
def cleanPath (s : String) : String := s

/-- `parent.rsplit("\\", 1)[0]`: everything before the last backslash. -/
def upToLastBackslash (s : String) : String :=
  (((s.data.reverse.dropWhile (fun c => decide (c ≠ '\\'))).drop 1).reverse).asString

/-- Python `str.replace(pat, "")`: removes all non-overlapping occurrences
of a (nonempty) pattern, scanning left to right. -/
def pyRemoveAll (pat : List Char) (l : List Char) : List Char :=
  match l with
  | [] => []
  | c :: rest =>
      if pat ≠ [] ∧ pat.isPrefixOf (c :: rest) then
        pyRemoveAll pat ((c :: rest).drop pat.length)
      else c :: pyRemoveAll pat rest
termination_by l.length
decreasing_by
  · rename_i hp
    simp only [List.length_drop, List.length_cons]
    have : pat.length ≠ 0 := by
      intro h0
      exact hp.1 (List.eq_nil_of_length_eq_zero h0)
    omega
  · simp only [List.length_cons]
    omega

/-- `Downloads.get_folder_destination` (called from the folder-contents
handler without explicit root/destination overrides). -/
def getFolderDestination (env : Env) (s : St) (username folderPath : String)
    (rootFolderPath downloadFolderPath : Option String) : String :=
  let parent :=
    match rootFolderPath with
    | some r => if r ≠ "" then r else folderPath
    | none => folderPath
  let removed :=
    if parent.data.any (fun c => decide (c = '\\')) then upToLastBackslash parent
    else ""
  let stripped :=
    if removed = "" then folderPath
    else (pyRemoveAll removed.data folderPath.data).asString
  let target := backslashToSep (lstripBackslash stripped)
  let dl :=
    if downloadFolderPath.getD "" = "" then
      match dictGet s.requestedFolders username with
      | some folders =>
          match dictGet folders folderPath with
          | some (some custom) =>
              if custom ≠ "" then custom else getDefaultDownloadFolder env username
          | _ => getDefaultDownloadFolder env username
      | none => getDefaultDownloadFolder env username
    else downloadFolderPath.getD ""
  pjoin dl target

/-- `Downloads.enqueue_download`. -/
def enqueueDownload (env : Env) (s : St) (username virtualPath : String)
    (folderPath : String) (size : Nat) (bypassFilter : Bool) : St :=
  let folder :=
    if folderPath ≠ "" then cleanPath folderPath
    else getDefaultDownloadFolder env username
  let fresh := fun (s0 : St) =>
    let t : Transfer := { username := username, virtualPath := virtualPath,
                          folderPath := folder, size := size }
    let nt := dictPut s0.transfers (username ++ virtualPath) t
    let s1 := { s0 with transfers := nt }
    let s2 := dEnqueueTransfer env s1 username virtualPath bypassFilter
    dUpdateTransfer s2 username virtualPath
  match getT s username virtualPath with
  | some t0 =>
      if t0.folderPath ≠ folder ∧ t0.status = .finished then
        fresh (dClearTransfer s username virtualPath)
      else s
  | none => fresh s

/-- The virtual path of a listed file
(`folder_path.rstrip("\\") + "\\" + basename`). -/
def vpOf (folderPath : String) (f : FileInfo) : String :=
  rstripBackslash folderPath ++ "\\" ++ f.name

/-- The comparison key of the listing sort
(`files.sort(key=lambda x: strxfrm(x[1]))`, a stable sort by locale key). -/
def fileLe (env : Env) (a b : FileInfo) : Bool :=
  decide (env.strxfrm a.name ≤ env.strxfrm b.name)

/-- The `for folder_path, files in msg.list.items()` loop of
`_folder_contents_response`; the large-folder branch returns from the whole
handler. -/
def fcrLoop (env : Env) (username : String) (checkNumFiles : Bool) :
    List (String × List FileInfo) → St → St
  | [], s => s
  | (folderPath, files) :: rest, s =>
      let userFolders := (dictGet s.requestedFolders username).getD []
      if (dictGet userFolders folderPath).isNone then
        fcrLoop env username checkNumFiles rest s
      else
        let numFiles := files.length
        if checkNumFiles ∧ numFiles > 100 then
          addEvent s (.downloadLargeFolder username folderPath numFiles)
        else
          let dest := getFolderDestination env s username folderPath none none
          let nr := dictMut s.requestedFolders username (fun fl => dictDel fl folderPath)
          let s1 := { s with requestedFolders := nr }
          let files2 := if numFiles > 1 then files.mergeSort (fileLe env) else files
          let s2 := files2.foldl (fun acc f =>
            enqueueDownload env acc username (vpOf folderPath f) dest f.size
              false) s1
          fcrLoop env username checkNumFiles rest s2

/-- `Downloads._folder_contents_response` (peer code 37). -/
def folderContentsResponse (env : Env) (s : St) (msg : FolderContentsMsg)
    (checkNumFiles : Bool) : St :=
  if (dictGet s.requestedFolders msg.username).isNone then s
  else fcrLoop env msg.username checkNumFiles msg.contents s

section FolderLemmas

theorem dictGet_put {α : Type} [DecidableEq α] {β : Type}
    (l : List (α × β)) (k : α) (v : β) :
    dictGet (dictPut l k v) k = some v := by
  induction l with
  | nil => simp [dictPut, dictGet]
  | cons e rest ih =>
      obtain ⟨k2, v2⟩ := e
      by_cases h : k2 = k <;> simp [dictPut, dictGet, h, ih]

theorem dictGet_put_ne {α : Type} [DecidableEq α] {β : Type}
    (l : List (α × β)) (k k2 : α) (v : β) (h : k2 ≠ k) :
    dictGet (dictPut l k v) k2 = dictGet l k2 := by
  have h5 : ¬ k = k2 := fun h2 => h h2.symm
  induction l with
  | nil => simp [dictPut, dictGet, h5]
  | cons e rest ih =>
      obtain ⟨k3, v3⟩ := e
      by_cases h3 : k3 = k <;> by_cases h4 : k3 = k2 <;>
        simp_all [dictPut, dictGet]

theorem string_append_cancel (u a b : String) (h : u ++ a = u ++ b) :
    a = b := by
  have hd := congrArg String.data h
  rw [String.data_append, String.data_append] at hd
  exact String.ext (List.append_cancel_left hd)

theorem vpOf_inj (folderPath : String) {f g : FileInfo}
    (h : vpOf folderPath f = vpOf folderPath g) : f.name = g.name :=
  string_append_cancel (rstripBackslash folderPath ++ "\\") f.name g.name h

variable (env : Env) (s : St) (u p : String)

@[simp] theorem requestedFolders_mutT (f : Transfer → Transfer) :
    (mutT s u p f).requestedFolders = s.requestedFolders := rfl

@[simp] theorem requestedFolders_addPeer (m : PMsg) :
    (addPeer s u m).requestedFolders = s.requestedFolders := rfl

@[simp] theorem requestedFolders_addEvent (e : Ev) :
    (addEvent s e).requestedFolders = s.requestedFolders := rfl

@[simp] theorem requestedFolders_baseEnqueue :
    (baseEnqueue s u p).requestedFolders = s.requestedFolders := rfl

@[simp] theorem requestedFolders_fst_getBasenameByteLimit (f : String) :
    ((getBasenameByteLimit env s f).1).requestedFolders =
      s.requestedFolders := by
  unfold getBasenameByteLimit; split <;> rfl

/-- Field bookkeeping of the benign enqueue path: the key is appended to
the queued partition, every other transfer record is untouched, and the
requested-folders table is preserved. -/
theorem dEnqueueTransfer_benign_fields (t0 : Transfer)
    (hT : getT s u p = some t0)
    (hnofilter : env.cfg.enablefilters = false)
    (hself : env.selfStatus ≠ .offline)
    (hpeer : env.userStatus u ≠ some .offline)
    (hnofile : ∀ pth, env.fsIsFile pth = false) :
    (dEnqueueTransfer env s u p false).queuedKeys = setAdd s.queuedKeys (u, p) ∧
    (∀ u2 p2, u2 ++ p2 ≠ u ++ p →
      getT (dEnqueueTransfer env s u p false) u2 p2 = getT s u2 p2) ∧
    (dEnqueueTransfer env s u p false).requestedFolders =
      s.requestedFolders := by
  have hc2 : (getCompleteDownloadFilePath env s u p t0.size t0.folderPath).2 =
      none := by
    simp only [getCompleteDownloadFilePath]
    exact completeLoop_none env _ _ _ _ _ _ _ (hnofile _)
  simp only [dEnqueueTransfer, hT]
  rw [if_neg (by simp [hnofilter]), if_neg (by
    intro hcon
    rcases hcon with h1 | h2
    · exact hself h1
    · exact hpeer h2)]
  simp only [hc2]
  refine ⟨?_, ?_, ?_⟩
  · split <;>
      simp [queuedKeys_fst_getComplete, addPeer, baseEnqueue, mutT]
  · intro u2 p2 hne
    split <;>
      simp [getT, dictGet_mut_ne _ _ _ _ hne, addPeer, baseEnqueue, mutT,
        transfers_fst_getComplete]
  · split <;>
      simp [addPeer, baseEnqueue, mutT, getCompleteDownloadFilePath,
        fst_getDownloadBasename, requestedFolders_fst_getBasenameByteLimit]

theorem mem_setAdd_iff {α : Type} [DecidableEq α] {l : List α} {a b : α} :
    b ∈ setAdd l a ↔ b ∈ l ∨ b = a := by
  unfold setAdd
  split
  · constructor
    · exact Or.inl
    · rintro (h | rfl) <;> assumption
  · simp [List.mem_append]

theorem setAdd_not_mem {α : Type} [DecidableEq α] {l : List α} {a : α}
    (h : a ∉ l) : setAdd l a = l ++ [a] := by
  unfold setAdd
  rw [if_neg h]

/-- `enqueue_download` on a fresh key under a benign environment: records
the new transfer with the given destination folder, appends it to the
queued partition, and touches nothing else. -/
theorem enqueueDownload_fresh (env : Env) (s : St) (u vp fp : String)
    (size : Nat)
    (hfresh : getT s u vp = none)
    (hfp : fp ≠ "")
    (hnofilter : env.cfg.enablefilters = false)
    (hself : env.selfStatus ≠ .offline)
    (hpeer : env.userStatus u ≠ some .offline)
    (hnofile : ∀ pth, env.fsIsFile pth = false) :
    getT (enqueueDownload env s u vp fp size false) u vp =
      some { username := u, virtualPath := vp, folderPath := fp,
             size := size, status := .queued } ∧
    (enqueueDownload env s u vp fp size false).queuedKeys =
      setAdd s.queuedKeys (u, vp) ∧
    (∀ u2 p2, u2 ++ p2 ≠ u ++ vp →
      getT (enqueueDownload env s u vp fp size false) u2 p2 = getT s u2 p2) ∧
    (enqueueDownload env s u vp fp size false).requestedFolders =
      s.requestedFolders := by
  have hred : enqueueDownload env s u vp fp size false =
      dUpdateTransfer (dEnqueueTransfer env { s with transfers := dictPut s.transfers (u ++ vp) { username := u, virtualPath := vp, folderPath := fp, size := size } } u vp false) u vp := by
    simp only [enqueueDownload, hfresh]
    simp [cleanPath, hfp]
  rw [hred]
  have hT1 : getT { s with transfers := dictPut s.transfers (u ++ vp) { username := u, virtualPath := vp, folderPath := fp, size := size } } u vp = some { username := u, virtualPath := vp, folderPath := fp, size := size } := by
    simpa [getT] using dictGet_put s.transfers (u ++ vp)
      { username := u, virtualPath := vp, folderPath := fp, size := size }
  have hq := dEnqueueTransfer_queues env _ u vp _ hT1 hnofilter hself hpeer
    hnofile
  have hf := dEnqueueTransfer_benign_fields env _ u vp _ hT1 hnofilter hself
    hpeer hnofile
  refine ⟨?_, ?_, ?_, ?_⟩
  · simp only [dUpdateTransfer, getT_addEvent]
    rw [hq.1]
  · simp only [dUpdateTransfer, queuedKeys_addEvent]
    rw [hf.1]
  · intro u2 p2 hne
    simp only [dUpdateTransfer, getT_addEvent]
    rw [hf.2.1 u2 p2 hne]
    simp [getT, dictGet_put_ne _ _ _ _ hne]
  · simp only [dUpdateTransfer, requestedFolders_addEvent]
    rw [hf.2.2]

/-- The enqueue loop of the folder-contents handler, over a list of files
with fresh, pairwise distinct names: queues each file in order under the
computed destination. -/
theorem enqueueFold (env : Env) (u fp dest : String)
    (hdest : dest ≠ "")
    (hnofilter : env.cfg.enablefilters = false)
    (hself : env.selfStatus ≠ .offline)
    (hpeer : env.userStatus u ≠ some .offline)
    (hnofile : ∀ pth, env.fsIsFile pth = false) :
    ∀ (fs : List FileInfo) (S : St),
    (∀ f ∈ fs, getT S u (vpOf fp f) = none) →
    (∀ f ∈ fs, (u, vpOf fp f) ∉ S.queuedKeys) →
    (fs.map (fun f => f.name)).Nodup →
    ((fs.foldl (fun acc f =>
        enqueueDownload env acc u (vpOf fp f) dest f.size false) S).queuedKeys =
      S.queuedKeys ++ fs.map (fun f => (u, vpOf fp f))) ∧
    ((fs.foldl (fun acc f =>
        enqueueDownload env acc u (vpOf fp f) dest f.size false) S).requestedFolders =
      S.requestedFolders) ∧
    (∀ u2 p2, (∀ f ∈ fs, u2 ++ p2 ≠ u ++ vpOf fp f) →
      getT (fs.foldl (fun acc f =>
        enqueueDownload env acc u (vpOf fp f) dest f.size false) S) u2 p2 =
      getT S u2 p2) ∧
    (∀ f ∈ fs, getT (fs.foldl (fun acc f =>
        enqueueDownload env acc u (vpOf fp f) dest f.size false) S) u
        (vpOf fp f) =
      some { username := u, virtualPath := vpOf fp f, folderPath := dest,
             size := f.size, status := .queued }) := by
  intro fs
  induction fs with
  | nil =>
      intro S _ _ _
      exact ⟨by simp, rfl, fun _ _ _ => rfl, by simp⟩
  | cons f rest ih =>
      intro S hfresh hqueued hnodup
      have hstep := enqueueDownload_fresh env S u (vpOf fp f) dest f.size
        (hfresh f (List.mem_cons_self _ _)) hdest hnofilter hself hpeer hnofile
      have hnameR : ∀ g ∈ rest, g.name ≠ f.name := by
        intro g hg hEq
        have h1 := List.nodup_cons.mp hnodup
        exact h1.1 (List.mem_map.mpr ⟨g, hg, hEq⟩)
      have hkeyne : ∀ g ∈ rest, u ++ vpOf fp g ≠ u ++ vpOf fp f := by
        intro g hg hEq
        exact hnameR g hg (vpOf_inj fp (string_append_cancel u _ _ hEq))
      have hfresh2 : ∀ g ∈ rest,
          getT (enqueueDownload env S u (vpOf fp f) dest f.size false) u
            (vpOf fp g) = none := by
        intro g hg
        rw [hstep.2.2.1 u (vpOf fp g) (hkeyne g hg)]
        exact hfresh g (List.mem_cons_of_mem _ hg)
      have hqueued2 : ∀ g ∈ rest,
          (u, vpOf fp g) ∉
            (enqueueDownload env S u (vpOf fp f) dest f.size false).queuedKeys := by
        intro g hg hmem
        rw [hstep.2.1] at hmem
        rcases mem_setAdd_iff.mp hmem with hmem2 | hmem2
        · exact hqueued g (List.mem_cons_of_mem _ hg) hmem2
        · have : vpOf fp g = vpOf fp f := congrArg Prod.snd hmem2
          exact hnameR g hg (vpOf_inj fp this)
      have hnodup2 : (rest.map (fun f2 => f2.name)).Nodup :=
        (List.nodup_cons.mp hnodup).2
      obtain ⟨ihq, ihr, ihother, ihrec⟩ :=
        ih (enqueueDownload env S u (vpOf fp f) dest f.size false) hfresh2
          hqueued2 hnodup2
      refine ⟨?_, ?_, ?_, ?_⟩
      · simp only [List.foldl_cons, ihq, hstep.2.1,
          setAdd_not_mem (hqueued f (List.mem_cons_self _ _))]
        simp [List.map_cons]
      · simp only [List.foldl_cons, ihr, hstep.2.2.2]
      · intro u2 p2 hne
        simp only [List.foldl_cons]
        rw [ihother u2 p2 (fun g hg => hne g (List.mem_cons_of_mem _ hg)),
          hstep.2.2.1 u2 p2 (hne f (List.mem_cons_self _ _))]
      · intro g hg
        rcases List.mem_cons.mp hg with rfl | hgr
        · simp only [List.foldl_cons]
          rw [ihother u (vpOf fp g) (fun f2 hf2 => Ne.symm (hkeyne f2 hf2))]
          exact hstep.1
        · simp only [List.foldl_cons]
          exact ihrec g hgr

theorem pjoin_ne_empty (a b : String) : pjoin a b ≠ "" := by
  intro h
  have hd := congrArg String.data h
  rw [pjoin, String.data_append, String.data_append] at hd
  simp at hd

theorem fileLe_trans (env : Env) : ∀ (a b c : FileInfo),
    fileLe env a b → fileLe env b c → fileLe env a c := by
  intro a b c hab hbc
  simp only [fileLe, decide_eq_true_eq] at hab hbc ⊢
  exact le_trans hab hbc

theorem fileLe_total (env : Env) : ∀ (a b : FileInfo),
    fileLe env a b || fileLe env b a := by
  intro a b
  simp only [fileLe, Bool.or_eq_true, decide_eq_true_eq]
  exact le_total _ _

end FolderLemmas

/-- Claim C7 (amended): for a folder-contents response matching a
previously requested folder — (A) a listing of more than 100 files with
file-count checking enabled emits the confirmation-deferral event and does
nothing else (no file enqueued, request entry kept); (B) a listing of at
most 100 files, whose files are not already present as transfers and have
distinct names, under a benign environment (filters off, both sides
online, no complete copies on disk), enqueues every file as an individual
queued download under the computed destination, in locale-aware sorted
order whenever the listing has more than one file, and removes the folder
request entry. -/
theorem folder_contents_response_spec (env : Env) (s : St)
    (username folderPath : String) (files : List FileInfo)
    (userFolders : List (String × Option String))
    (hUser : dictGet s.requestedFolders username = some userFolders)
    (hFolder : (dictGet userFolders folderPath).isSome = true) :
    (100 < files.length →
      folderContentsResponse env s
        { username := username, contents := [(folderPath, files)] } true =
        addEvent s (.downloadLargeFolder username folderPath files.length)) ∧
    (files.length ≤ 100 →
      env.cfg.enablefilters = false →
      env.selfStatus ≠ .offline →
      env.userStatus username ≠ some .offline →
      (∀ pth, env.fsIsFile pth = false) →
      (∀ f ∈ files, getT s username (vpOf folderPath f) = none) →
      (∀ f ∈ files, (username, vpOf folderPath f) ∉ s.queuedKeys) →
      (files.map (fun f => f.name)).Nodup →
      ∀ checkNumFiles,
      ((if files.length > 1 then files.mergeSort (fileLe env) else files).Perm
          files ∧
        (1 < files.length →
          (if files.length > 1 then files.mergeSort (fileLe env)
           else files).Pairwise (fun a b => fileLe env a b = true)) ∧
        (folderContentsResponse env s
            { username := username, contents := [(folderPath, files)] }
            checkNumFiles).queuedKeys =
          s.queuedKeys ++
            (if files.length > 1 then files.mergeSort (fileLe env)
             else files).map (fun f => (username, vpOf folderPath f)) ∧
        (∀ f ∈ files,
          getT (folderContentsResponse env s
              { username := username, contents := [(folderPath, files)] }
              checkNumFiles) username (vpOf folderPath f) =
            some { username := username, virtualPath := vpOf folderPath f,
                   folderPath :=
                     getFolderDestination env s username folderPath none none,
                   size := f.size, status := .queued }) ∧
        dictGet ((dictGet (folderContentsResponse env s
            { username := username, contents := [(folderPath, files)] }
            checkNumFiles).requestedFolders username).getD [])
          folderPath = none)) := by
  have hIsNone : (dictGet s.requestedFolders username).isNone = false := by
    rw [hUser]; rfl
  have hInner : ((dictGet s.requestedFolders username).getD []) = userFolders := by
    rw [hUser]; rfl
  have hFolderNotNone :
      (dictGet ((dictGet s.requestedFolders username).getD []) folderPath).isNone
        = false := by
    rw [hInner]
    rcases h2 : dictGet userFolders folderPath with _ | v
    · rw [h2] at hFolder; simp at hFolder
    · rfl
  constructor
  · intro h100
    simp only [folderContentsResponse, hIsNone, Bool.false_eq_true, if_false,
      fcrLoop, hFolderNotNone]
    rw [if_pos (by exact ⟨trivial, h100⟩)]
  · intro h100 hnofilter hself hpeer hnofile hfresh hqueued hnodup checkNumFiles
    have hperm : (if files.length > 1 then files.mergeSort (fileLe env)
        else files).Perm files := by
      split
      · exact List.mergeSort_perm files (fileLe env)
      · exact List.Perm.refl files
    have hsorted : 1 < files.length →
        (if files.length > 1 then files.mergeSort (fileLe env)
         else files).Pairwise (fun a b => fileLe env a b = true) := by
      intro h1
      rw [if_pos h1]
      exact List.sorted_mergeSort (fileLe_trans env) (fileLe_total env) files
    have hred : folderContentsResponse env s
        { username := username, contents := [(folderPath, files)] }
        checkNumFiles =
        (if files.length > 1 then files.mergeSort (fileLe env)
         else files).foldl (fun acc f =>
            enqueueDownload env acc username (vpOf folderPath f)
              (getFolderDestination env s username folderPath none none)
              f.size false)
          { s with requestedFolders := dictMut s.requestedFolders username (fun fl => dictDel fl folderPath) } := by
      simp only [folderContentsResponse, hIsNone, Bool.false_eq_true, if_false,
        fcrLoop, hFolderNotNone]
      rw [if_neg (by
        intro hcon
        omega)]
    have hfold := enqueueFold env username folderPath
      (getFolderDestination env s username folderPath none none)
      (pjoin_ne_empty _ _) hnofilter hself hpeer hnofile
      (if files.length > 1 then files.mergeSort (fileLe env) else files)
      { s with requestedFolders := dictMut s.requestedFolders username (fun fl => dictDel fl folderPath) }
      (fun f hf => hfresh f (hperm.mem_iff.mp hf))
      (fun f hf => hqueued f (hperm.mem_iff.mp hf))
      (by
        have := hperm.map (fun f => f.name)
        exact this.nodup_iff.mpr hnodup)
    refine ⟨hperm, hsorted, ?_, ?_, ?_⟩
    · rw [hred, hfold.1]
    · intro f hf
      rw [hred]
      exact hfold.2.2.2 f (hperm.mem_iff.mpr hf)
    · rw [hred, hfold.2.1]
      simp only [dictGet_mut, hUser, Option.map_some, Option.getD_some]
      exact dictGet_dictDel userFolders folderPath

/-- A requested folder `F` of user `u` whose single listed file already has
a (paused) transfer record. -/
def stC7 : St :=
  { transfers := [("uF\\a.mp3", { username := "u",
                                  virtualPath := "F\\a.mp3",
                                  status := .paused,
                                  folderPath := "dl" })],
    requestedFolders := [("u", [("F", none)])] }

/-- Claim C7 is false as stated: a 1-file listing whose file already has a
non-finished transfer does not enqueue that file — `enqueue_download`
stops at the duplicate, so the transfer stays paused and outside the
queued partition. -/
theorem folder_contents_duplicate_not_enqueued :
    ("u", "F\\a.mp3") ∉ (folderContentsResponse {} stC7
      { username := "u", contents := [("F", [{ name := "a.mp3", size := 5 }])] }
      true).queuedKeys ∧
    (getT (folderContentsResponse {} stC7
      { username := "u", contents := [("F", [{ name := "a.mp3", size := 5 }])] }
      true) "u" "F\\a.mp3").map (fun t => t.status) = some TStatus.paused := by
  decide

/-- The witness scenario for the amended claim C7: two fresh files listed
out of order. -/
def stW7 : St := { requestedFolders := [("u", [("F", none)])] }

/-- Witness for the amended claim C7: in a two-file listing, each file
ends up as a queued transfer under the computed destination `dl/F`. -/
theorem folder_contents_response_witness :
    getT (folderContentsResponse {} stW7
      { username := "u",
        contents := [("F", [{ name := "b.mp3", size := 2 },
                            { name := "a.mp3", size := 1 }])] }
      true) "u" "F\\a.mp3" =
      some { username := "u", virtualPath := "F\\a.mp3",
             folderPath := "dl/F", size := 1, status := .queued } := by
  have h := (folder_contents_response_spec {} stW7 "u" "F"
    [{ name := "b.mp3", size := 2 }, { name := "a.mp3", size := 1 }]
    [("F", none)] (by decide) (by decide)).2
    (by decide) rfl (by decide) (by decide) (fun _ => rfl)
    (by decide) (by decide) (by decide) true
  exact h.2.2.2.1 { name := "a.mp3", size := 1 } (by decide)

end Nicotine

